import Mathlib

/-!
AppleImageLoader: the Apple EFI fat-binary parser and the load dispatcher

A shallow embedding of `Platform/AppleImageLoader/AppleImageLoader.c`.

* Memory buffers are lists of bytes; a `VOID *` is an `Option (List Byte)`
  (`none` is `NULL`).  Every read of the buffer is bounds checked and returns
  `Option`: `none` stands for an access outside the buffer.
* `UINTN`, `UINT32` and `UINT64` values are natural numbers, reduced modulo a
  power of two at the places where the C arithmetic is performed in a type of
  that width.
* The declarations of `AppleImageLoader.h` (structure sizes, field positions,
  the magic number and the CPU type constants) are parameters, collected in
  `FatDecls`.
-/

namespace AppleImageLoader

/-! ## Bytes and little-endian fields -/

/-- One byte of a memory buffer. -/
abbrev Byte := Fin 256

/-- Value of a little-endian sequence of bytes (IA32 and X64 are little-endian). -/
def leValue : List Byte → Nat
  | [] => 0
  | b :: bs => b.val + 256 * leValue bs

/-- The `len` bytes of `buf` starting at `pos`, when they all lie inside `buf`. -/
def readBytes (buf : List Byte) (pos len : Nat) : Option (List Byte) :=
  if pos + len ≤ buf.length then some ((buf.drop pos).take len) else none

/-- An unsigned little-endian integer field of `len` bytes at `pos`. -/
def readLE (buf : List Byte) (pos len : Nat) : Option Nat :=
  (readBytes buf pos len).map leValue

/-! ## Declarations of `AppleImageLoader.h` -/

/-- Position (`OFFSET_OF`) and width (`sizeof`) in bytes of a structure member. -/
structure Field where
  pos : Nat
  width : Nat
deriving DecidableEq, Repr

/-- The declarations of `AppleImageLoader.h` used by the parser.  The header
file is not part of the source tree, so its contents are parameters:
`sizeofHeader` is `sizeof (APPLE_EFI_FAT_HEADER)`, `sizeofArch` is
`sizeof (APPLE_EFI_FAT_ARCH_HEADER)`, `Magic` and `NumArchs` are members of
`APPLE_EFI_FAT_HEADER`, and `CpuType`, `Offset` and `Size` are members of
`APPLE_EFI_FAT_ARCH_HEADER`. -/
structure FatDecls where
  APPLE_EFI_FAT_MAGIC : Nat
  CPUYPE_X86 : Nat
  CPUYPE_X86_64 : Nat
  sizeofHeader : Nat
  sizeofArch : Nat
  Magic : Field
  NumArchs : Field
  CpuType : Field
  Offset : Field
  Size : Field
deriving DecidableEq, Repr

/-- The two build targets the source accepts (`EFI32`/`MDE_CPU_IA32` and
`EFIX64`/`MDE_CPU_X64`); any other target stops at `#error`. -/
inductive Platform where
  | IA32
  | X64
deriving DecidableEq, Repr

/-- Width in bits of `UINTN` (and of `sizeof` expressions) on the target. -/
def Platform.uintnBits : Platform → Nat
  | .IA32 => 32
  | .X64 => 64

/-- The CPU type the build compares `Archs[Index].CpuType` with (lines 74-80). -/
def FatDecls.platformCpuType (H : FatDecls) : Platform → Nat
  | .IA32 => H.CPUYPE_X86
  | .X64 => H.CPUYPE_X86_64

/-- A member lies inside a structure of `size` bytes and is 1 to 4 bytes wide. -/
def Field.Inside (f : Field) (size : Nat) : Prop :=
  0 < f.width ∧ f.width ≤ 4 ∧ f.pos + f.width ≤ size

/-- Two members of one structure do not overlap. -/
def Field.Disjoint (f g : Field) : Prop :=
  f.pos + f.width ≤ g.pos ∨ g.pos + g.width ≤ f.pos

/-- The parameters describe C declarations the source can be compiled with:
members lie inside their structure and do not overlap, the integer members are
at most 32 bits wide (the source widens `Offset` to `UINT64` before adding
`Size`, prints it with `%u`, and multiplies `NumArchs` in `UINTN`), and the
constants fit the members they are compared with. -/
def FatDecls.WF (H : FatDecls) : Prop :=
  H.Magic.Inside H.sizeofHeader ∧ H.NumArchs.Inside H.sizeofHeader ∧
  H.Magic.Disjoint H.NumArchs ∧
  H.CpuType.Inside H.sizeofArch ∧ H.Offset.Inside H.sizeofArch ∧
  H.Size.Inside H.sizeofArch ∧
  H.CpuType.Disjoint H.Offset ∧ H.CpuType.Disjoint H.Size ∧
  H.Offset.Disjoint H.Size ∧
  H.APPLE_EFI_FAT_MAGIC < 256 ^ H.Magic.width ∧
  H.CPUYPE_X86 < 256 ^ H.CpuType.width ∧
  H.CPUYPE_X86_64 < 256 ^ H.CpuType.width ∧
  H.sizeofHeader + H.sizeofArch < 256 ^ H.Offset.width

instance (f : Field) (n : Nat) : Decidable (f.Inside n) := by
  unfold Field.Inside; infer_instance

instance (f g : Field) : Decidable (f.Disjoint g) := by
  unfold Field.Disjoint; infer_instance

instance (H : FatDecls) : Decidable H.WF := by
  unfold FatDecls.WF; infer_instance

/-! ## Status codes -/

/-- An `EFI_STATUS`: the high bit (set for errors) and the remaining code. -/
structure EFI_STATUS where
  highBit : Bool
  code : Nat
deriving DecidableEq, Repr

/-- `EFI_SUCCESS` is 0. -/
def EFI_SUCCESS : EFI_STATUS := ⟨false, 0⟩

/-- `EFI_INVALID_PARAMETER` is `ENCODE_ERROR (2)`. -/
def EFI_INVALID_PARAMETER : EFI_STATUS := ⟨true, 2⟩

/-- `EFI_UNSUPPORTED` is `ENCODE_ERROR (3)`. -/
def EFI_UNSUPPORTED : EFI_STATUS := ⟨true, 3⟩

/-- The `EFI_ERROR` test: the status has its high bit set. -/
def EFI_ERROR (s : EFI_STATUS) : Bool := s.highBit

/-! ## `ParseAppleEfiFatBinary` -/

/-- The three members of `Hdr->Archs[Index]` the parser reads. -/
structure ArchHeader where
  CpuType : Nat
  Offset : Nat
  Size : Nat
deriving DecidableEq, Repr

/-- Modelled from the spec: the declaration of the `Archs` member is missing;
the entries are "stored immediately after the header with a fixed per-entry
size", so `Hdr->Archs[Index]` starts at byte
`sizeofHeader + Index * sizeofArch` of the source buffer. -/
def readArch (H : FatDecls) (src : List Byte) (Index : Nat) : Option ArchHeader := do
  let base := H.sizeofHeader + Index * H.sizeofArch
  let c ← readLE src (base + H.CpuType.pos) H.CpuType.width
  let o ← readLE src (base + H.Offset.pos) H.Offset.width
  let s ← readLE src (base + H.Size.pos) H.Size.width
  pure ⟨c, o, s⟩

/-- What a call of `ParseAppleEfiFatBinary` leaves behind: the returned status
and the final values of its own (by-value) parameters `ImageBuffer` and
`ImageSize`. -/
structure ParseResult where
  Status : EFI_STATUS
  ImageBuffer : Option (List Byte)
  ImageSize : Nat
deriving DecidableEq, Repr

/-- `AllocateZeroPool (n)`: a fresh buffer of `n` zero bytes (the allocation is
taken to succeed). -/
def AllocateZeroPool (n : Nat) : List Byte := List.replicate n 0

/-- `CopyMem (dst, src, n)`: the first `n` bytes of `dst` are replaced by `bytes`,
the `n` bytes read from the source. -/
def CopyMem (dst bytes : List Byte) (n : Nat) : List Byte :=
  bytes.take n ++ dst.drop n

/-- The loop of lines 70-111.  `remaining` is `Hdr->NumArchs - Index`, so the
loop body runs while `Index < Hdr->NumArchs`; `SizeOfBinary` is the `UINT64`
local of that name. -/
def archLoop (H : FatDecls) (P : Platform) (src : List Byte) (SourceSize : Nat)
    (ImageBuffer : Option (List Byte)) (ImageSize : Nat) :
    (remaining : Nat) → (Index : Nat) → (SizeOfBinary : Nat) → Option ParseResult
  | 0, _, _ => some ⟨EFI_UNSUPPORTED, ImageBuffer, ImageSize⟩
  | remaining + 1, Index, SizeOfBinary =>
    match readArch H src Index with
    | none => none
    | some a =>
      if a.CpuType = H.platformCpuType P then
        if a.Offset < SizeOfBinary ∨ a.Offset ≥ SourceSize
            ∨ SourceSize < (a.Offset + a.Size) % 2 ^ 64 then
          some ⟨EFI_INVALID_PARAMETER, ImageBuffer, ImageSize⟩
        else
          let n := a.Size % 2 ^ P.uintnBits
          match readBytes src a.Offset n with
          | none => none
          | some bytes =>
            some ⟨EFI_SUCCESS, some (CopyMem (AllocateZeroPool n) bytes n), n⟩
      else
        archLoop H P src SourceSize ImageBuffer ImageSize remaining (Index + 1)
          ((a.Offset + a.Size) % 2 ^ 64)

/-- The value `SizeOfBinary` gets at lines 58-60: the sum
`sizeof (APPLE_EFI_FAT_HEADER) + sizeof (APPLE_EFI_FAT_ARCH_HEADER) * Hdr->NumArchs`
is computed in `UINTN` (the type of `sizeof`; `NumArchs` is at most as wide)
and then added to the `UINT64` variable, which holds 0. -/
def initialSizeOfBinary (H : FatDecls) (P : Platform) (NumArchs : Nat) : Nat :=
  (0 + (H.sizeofHeader + H.sizeofArch * NumArchs) % 2 ^ P.uintnBits) % 2 ^ 64

/-- The function `ParseAppleEfiFatBinary` (lines 24-114).  The result is `none`
when the code would read outside the source buffer. -/
def ParseAppleEfiFatBinary (H : FatDecls) (P : Platform)
    (SourceBuffer : Option (List Byte)) (SourceSize : Nat)
    (ImageBuffer : Option (List Byte)) (ImageSize : Nat) : Option ParseResult :=
  match SourceBuffer with
  | none => some ⟨EFI_UNSUPPORTED, ImageBuffer, ImageSize⟩
  | some src =>
    if SourceSize = 0 then some ⟨EFI_UNSUPPORTED, ImageBuffer, ImageSize⟩
    else if SourceSize < H.sizeofHeader then
      some ⟨EFI_INVALID_PARAMETER, ImageBuffer, ImageSize⟩
    else
      match readLE src H.Magic.pos H.Magic.width with
      | none => none
      | some magic =>
        if magic ≠ H.APPLE_EFI_FAT_MAGIC then
          some ⟨EFI_UNSUPPORTED, ImageBuffer, ImageSize⟩
        else
          match readLE src H.NumArchs.pos H.NumArchs.width with
          | none => none
          | some NumArchs =>
            let SizeOfBinary := initialSizeOfBinary H P NumArchs
            if SizeOfBinary > SourceSize then
              some ⟨EFI_INVALID_PARAMETER, ImageBuffer, ImageSize⟩
            else
              archLoop H P src SourceSize ImageBuffer ImageSize NumArchs 0 SizeOfBinary

/-- The value of `SizeOfBinary` at the start of iteration `Index` of the loop
when no earlier iteration returned: the initial value for the first iteration,
and afterwards the value line 110 assigned in the preceding iteration. -/
def SizeOfBinaryAt (H : FatDecls) (src : List Byte) (initial : Nat) : Nat → Nat
  | 0 => initial
  | j + 1 =>
    match readArch H src j with
    | some a => (a.Offset + a.Size) % 2 ^ 64
    | none => 0

/-! ## `LoadImageEx` -/

/-- An `EFI_HANDLE`, as an abstract identifier. -/
abbrev EFI_HANDLE := Nat

/-- An `EFI_DEVICE_PATH_PROTOCOL *`, as an abstract identifier. -/
abbrev DevicePath := Nat

/-- What `GetFileBufferByFilePath` hands back: the returned pointer and the value
it leaves in `*FileSize`. -/
structure FileBuffer where
  Buffer : Option (List Byte)
  FileSize : Nat
deriving DecidableEq, Repr

/-- What an `EFI_IMAGE_LOAD` function hands back: its status and the handle it
stored through `ImageHandle`, if any. -/
structure LoadResult where
  Status : EFI_STATUS
  ImageHandle : Option EFI_HANDLE
deriving DecidableEq, Repr

/-- The functions `LoadImageEx` calls that are defined outside the source file:
the file-buffer provider (given `BootPolicy`, `FilePath` and the incoming value of
`SourceSize`), the signature verifier, and the loader saved in the static
`OriginalLoadImage`. -/
structure Services where
  GetFileBufferByFilePath : Bool → DevicePath → Nat → FileBuffer
  VerifyApplePeImageSignature : Option (List Byte) → Nat → EFI_STATUS
  OriginalLoadImage :
    Bool → EFI_HANDLE → DevicePath → Option (List Byte) → Nat → LoadResult

/-- A call made while serving a request, with its arguments. -/
inductive Call where
  | GetFileBufferByFilePath (BootPolicy : Bool) (FilePath : DevicePath)
  | ParseAppleEfiFatBinary (SourceBuffer : Option (List Byte)) (SourceSize : Nat)
      (ImageBuffer : Option (List Byte)) (ImageSize : Nat)
  | VerifyApplePeImageSignature (ImageBuffer : Option (List Byte)) (ImageSize : Nat)
  | OriginalLoadImage (BootPolicy : Bool) (ParentImageHandle : EFI_HANDLE)
      (FilePath : DevicePath) (SourceBuffer : Option (List Byte)) (SourceSize : Nat)
  | gBS_LoadImage (BootPolicy : Bool) (ParentImageHandle : EFI_HANDLE)
      (FilePath : DevicePath) (SourceBuffer : Option (List Byte)) (SourceSize : Nat)
deriving DecidableEq, Repr

/-- The outcome of a request: the returned status, the handle stored through
`ImageHandle` (if any), and the calls made, in order. -/
structure LoadOutcome where
  Status : EFI_STATUS
  ImageHandle : Option EFI_HANDLE
  calls : List Call
deriving DecidableEq, Repr

/-- The function `LoadImageEx` (lines 116-176).  The incoming `SourceBuffer` is
overwritten before it is used.  The result is `none` when the parser would read
outside the fetched buffer. -/
def LoadImageEx (H : FatDecls) (P : Platform) (S : Services)
    (BootPolicy : Bool) (ParentImageHandle : EFI_HANDLE) (FilePath : DevicePath)
    (_SourceBuffer : Option (List Byte)) (SourceSize : Nat) : Option LoadOutcome :=
  let ImageBuffer : Option (List Byte) := none
  let ImageSize : Nat := 0
  let Status := EFI_INVALID_PARAMETER
  let fetched := S.GetFileBufferByFilePath BootPolicy FilePath SourceSize
  let SourceBuffer := fetched.Buffer
  let SourceSize := fetched.FileSize
  let t0 := [Call.GetFileBufferByFilePath BootPolicy FilePath]
  if SourceBuffer.isSome ∧ SourceSize ≠ 0 then
    match ParseAppleEfiFatBinary H P SourceBuffer SourceSize ImageBuffer ImageSize with
    | none => none
    | some parsed =>
      let Status := parsed.Status
      let t1 := t0 ++ [Call.ParseAppleEfiFatBinary SourceBuffer SourceSize ImageBuffer ImageSize]
      if ¬ EFI_ERROR Status then
        let Status := S.VerifyApplePeImageSignature ImageBuffer ImageSize
        let t2 := t1 ++ [Call.VerifyApplePeImageSignature ImageBuffer ImageSize]
        if EFI_ERROR Status then
          some ⟨Status, none, t2⟩
        else
          some ⟨Status, none, t2⟩
      else
        let loaded := S.OriginalLoadImage BootPolicy ParentImageHandle FilePath
          SourceBuffer SourceSize
        some ⟨loaded.Status, loaded.ImageHandle,
          t1 ++ [Call.OriginalLoadImage BootPolicy ParentImageHandle FilePath
            SourceBuffer SourceSize]⟩
  else
    some ⟨Status, none, t0⟩

/-! ## `AppleLoadImage` and `AppleImageLoaderEntryPoint` -/

/-- An `EFI_IMAGE_LOAD` function defined outside the source file. -/
abbrev ExternalLoad :=
  Bool → EFI_HANDLE → DevicePath → Option (List Byte) → Nat → LoadResult

/-- What the `LoadImage` member of the boot-services table `gBS` can point at:
a loader defined outside the source file, or the function `LoadImageEx`. -/
inductive ImageLoadFn where
  | firmware (f : ExternalLoad)
  | LoadImageEx

/-- A call through an `EFI_IMAGE_LOAD` pointer.  `S` holds the external
functions and the current value of the static `OriginalLoadImage`, which is the
loader `LoadImageEx` falls back to.  A loader outside the file makes no call this
model records. -/
def ImageLoadFn.invoke (H : FatDecls) (P : Platform) (S : Services) :
    ImageLoadFn → Bool → EFI_HANDLE → DevicePath → Option (List Byte) → Nat →
      Option LoadOutcome
  | .firmware f, BootPolicy, ParentImageHandle, FilePath, SourceBuffer, SourceSize =>
    let loaded := f BootPolicy ParentImageHandle FilePath SourceBuffer SourceSize
    some ⟨loaded.Status, loaded.ImageHandle, []⟩
  | .LoadImageEx, BootPolicy, ParentImageHandle, FilePath, SourceBuffer, SourceSize =>
    AppleImageLoader.LoadImageEx H P S BootPolicy ParentImageHandle FilePath SourceBuffer
      SourceSize

/-- The function `AppleLoadImage` (lines 179-220).  `LoadImage` is the current
value of `gBS->LoadImage`; the incoming `SourceBuffer` is overwritten before it
is used, and `Version` is not used.  The calls of the loader it delegates to
follow its own calls in the trace. -/
def AppleLoadImage (H : FatDecls) (P : Platform) (S : Services) (LoadImage : ImageLoadFn)
    (BootPolicy : Bool) (ParentImageHandle : EFI_HANDLE) (FilePath : DevicePath)
    (_SourceBuffer : Option (List Byte)) (SourceSize : Nat) (_Version : Nat) :
    Option LoadOutcome :=
  let fetched := S.GetFileBufferByFilePath BootPolicy FilePath SourceSize
  let SourceBuffer := fetched.Buffer
  let SourceSize := fetched.FileSize
  let t0 := [Call.GetFileBufferByFilePath BootPolicy FilePath]
  if SourceBuffer.isSome ∧ SourceSize ≠ 0 then
    let Status := S.VerifyApplePeImageSignature SourceBuffer SourceSize
    let t1 := t0 ++ [Call.VerifyApplePeImageSignature SourceBuffer SourceSize]
    if EFI_ERROR Status then
      some ⟨Status, none, t1⟩
    else
      match LoadImage.invoke H P S BootPolicy ParentImageHandle FilePath
          SourceBuffer SourceSize with
      | none => none
      | some loaded =>
        some ⟨loaded.Status, loaded.ImageHandle,
          t1 ++ [Call.gBS_LoadImage BootPolicy ParentImageHandle FilePath
            SourceBuffer SourceSize] ++ loaded.calls⟩
  else
    some ⟨EFI_INVALID_PARAMETER, none, t0⟩

/-- What `AppleImageLoaderEntryPoint` leaves behind: its status, the external
functions together with the new value of the static `OriginalLoadImage`, and the
new value of `gBS->LoadImage`. -/
structure EntryResult where
  Status : EFI_STATUS
  services : Services
  LoadImage : ImageLoadFn

/-- The function `AppleImageLoaderEntryPoint` (lines 226-257), run on a
boot-services table whose `LoadImage` member is the loader `firmwareLoadImage`
of the firmware: the member is saved in `OriginalLoadImage` and replaced by
`LoadImageEx`.  The local `gBS` of the entry point and the global `gBS` that
`AppleLoadImage` reads both point at the boot-services table of the system
table, so the new member is what `AppleLoadImage` calls afterwards.  The status
of `InstallProtocolInterface` is dropped by the source, and the CRC update has
no effect on later requests. -/
def AppleImageLoaderEntryPoint (S : Services) (firmwareLoadImage : ExternalLoad) :
    EntryResult :=
  { Status := EFI_SUCCESS
    services := { S with OriginalLoadImage := firmwareLoadImage }
    LoadImage := ImageLoadFn.LoadImageEx }

/-- The local variables of `LoadImageEx` around the call of lines 144-149. -/
structure LoadImageExLocals where
  Status : EFI_STATUS
  ImageBuffer : Option (List Byte)
  ImageSize : Nat
  SourceBuffer : Option (List Byte)
  SourceSize : Nat
deriving DecidableEq, Repr

/-- The statement of lines 144-149,
`Status = ParseAppleEfiFatBinary (SourceBuffer, SourceSize, ImageBuffer, ImageSize)`:
the four arguments are passed by value and only `Status` is assigned. -/
def LoadImageExLocals.callParse (H : FatDecls) (P : Platform) (l : LoadImageExLocals) :
    Option LoadImageExLocals :=
  match ParseAppleEfiFatBinary H P l.SourceBuffer l.SourceSize l.ImageBuffer l.ImageSize with
  | none => none
  | some parsed => some { l with Status := parsed.Status }

/-! ## Building a single-architecture container -/

/-- The `w` little-endian bytes of `v`. -/
def encodeLE : Nat → Nat → List Byte
  | 0, _ => []
  | w + 1, v => ⟨v % 256, Nat.mod_lt v (by decide)⟩ :: encodeLE w (v / 256)

/-- The buffer `buf` with the bytes `bs` stored at position `pos`. -/
def writeBytes (buf : List Byte) (pos : Nat) (bs : List Byte) : List Byte :=
  buf.take pos ++ bs ++ buf.drop (pos + bs.length)

/-- The structure image `buf` with the value `v` stored in its member `f`. -/
def setField (buf : List Byte) (f : Field) (v : Nat) : List Byte :=
  writeBytes buf f.pos (encodeLE f.width v)

/-- The header of the synthetic container: the magic number and `NumArchs = 1`. -/
def syntheticHeader (H : FatDecls) : List Byte :=
  setField (setField (List.replicate H.sizeofHeader 0) H.Magic H.APPLE_EFI_FAT_MAGIC)
    H.NumArchs 1

/-- The only entry of the synthetic container: the platform CPU type,
`Offset = sizeofHeader + sizeofArch` and the given `Size`. -/
def syntheticEntry (H : FatDecls) (P : Platform) (size : Nat) : List Byte :=
  setField (setField (setField (List.replicate H.sizeofArch 0)
    H.CpuType (H.platformCpuType P)) H.Offset (H.sizeofHeader + H.sizeofArch))
    H.Size size

/-- The synthetic single-architecture container around `img`: a header with the
magic number and `NumArchs = 1`, one entry with the platform CPU type,
`Offset = sizeofHeader + sizeofArch` and `Size = |img|`, then `img`. -/
def wrapSingleArch (H : FatDecls) (P : Platform) (img : List Byte) : List Byte :=
  syntheticHeader H ++ syntheticEntry H P img.length ++ img

/-- Two buffers hold the same bytes at every position from `lo` up to `hi`. -/
def AgreeOn (s t : List Byte) (lo hi : Nat) : Prop :=
  ∀ i, i < hi → lo ≤ i → s[i]? = t[i]?

instance (s t : List Byte) (lo hi : Nat) : Decidable (AgreeOn s t lo hi) := by
  unfold AgreeOn; infer_instance

/-! ## Concrete declarations and buffers used in the scenarios -/

/-- A declaration set with an 8-byte header (`Magic`, `NumArchs`) and 16-byte
entries (`CpuType`, `CpuSubtype`, `Offset`, `Size`), all members `UINT32`. -/
def scenarioDecls : FatDecls where
  APPLE_EFI_FAT_MAGIC := 0x0ef1fab9
  CPUYPE_X86 := 0x00000007
  CPUYPE_X86_64 := 0x01000007
  sizeofHeader := 8
  sizeofArch := 16
  Magic := ⟨0, 4⟩
  NumArchs := ⟨4, 4⟩
  CpuType := ⟨0, 4⟩
  Offset := ⟨8, 4⟩
  Size := ⟨12, 4⟩

/-- Scenario A: one X64 entry `{Offset = 24, Size = 8}` and the payload 1..8. -/
def scenarioA : List Byte :=
  [0xb9, 0xfa, 0xf1, 0x0e, 1, 0, 0, 0,
   0x07, 0, 0, 0x01, 0, 0, 0, 0, 24, 0, 0, 0, 8, 0, 0, 0,
   1, 2, 3, 4, 5, 6, 7, 8]

/-- Scenario B: scenario A with `Size = 9`. -/
def scenarioB : List Byte :=
  [0xb9, 0xfa, 0xf1, 0x0e, 1, 0, 0, 0,
   0x07, 0, 0, 0x01, 0, 0, 0, 0, 24, 0, 0, 0, 9, 0, 0, 0,
   1, 2, 3, 4, 5, 6, 7, 8]

/-- A 48-byte buffer with two X64 entries, `{Offset = 40, Size = 4}` and
`{Offset = 44, Size = 4}`. -/
def twoMatchesA : List Byte :=
  [0xb9, 0xfa, 0xf1, 0x0e, 2, 0, 0, 0,
   0x07, 0, 0, 0x01, 0, 0, 0, 0, 40, 0, 0, 0, 4, 0, 0, 0,
   0x07, 0, 0, 0x01, 0, 0, 0, 0, 44, 0, 0, 0, 4, 0, 0, 0,
   1, 2, 3, 4, 5, 6, 7, 8]

/-- The buffer `twoMatchesA` with another second entry, `{Offset = 0, Size = 255}`,
and other bytes after the range of the first entry. -/
def twoMatchesB : List Byte :=
  [0xb9, 0xfa, 0xf1, 0x0e, 2, 0, 0, 0,
   0x07, 0, 0, 0x01, 0, 0, 0, 0, 40, 0, 0, 0, 4, 0, 0, 0,
   0x07, 0, 0, 0x01, 9, 9, 9, 9, 0, 0, 0, 0, 255, 0, 0, 0,
   1, 2, 3, 4, 9, 9, 9, 9]

/-- A 64-byte buffer with three entries: `{CPUYPE_X86, Offset = 56, Size = 8}`,
`{CPUYPE_X86, Offset = 0, Size = 0}` and `{CPUYPE_X86_64, Offset = 0, Size = 8}`.
Header and table take the first 56 bytes. -/
def overlapContainer : List Byte :=
  [0xb9, 0xfa, 0xf1, 0x0e, 3, 0, 0, 0,
   0x07, 0, 0, 0, 0, 0, 0, 0, 56, 0, 0, 0, 8, 0, 0, 0,
   0x07, 0, 0, 0, 0, 0, 0, 0, 0, 0, 0, 0, 0, 0, 0, 0,
   0x07, 0, 0, 0x01, 0, 0, 0, 0, 0, 0, 0, 0, 8, 0, 0, 0,
   1, 2, 3, 4, 5, 6, 7, 8]

/-- Services for one request: the provider returns `buf`, the verifier accepts
everything, and the original loader loads whatever it is given as handle 1. -/
def servicesFor (buf : List Byte) : Services where
  GetFileBufferByFilePath := fun _ _ _ => ⟨some buf, buf.length⟩
  VerifyApplePeImageSignature := fun _ _ => EFI_SUCCESS
  OriginalLoadImage := fun _ _ _ _ _ => ⟨EFI_SUCCESS, some 1⟩

/-- Scenario A with `Size = 0`: the entry describes an empty image at offset 24. -/
def emptyImageContainer : List Byte :=
  [0xb9, 0xfa, 0xf1, 0x0e, 1, 0, 0, 0,
   0x07, 0, 0, 0x01, 0, 0, 0, 0, 24, 0, 0, 0, 0, 0, 0, 0,
   1, 2, 3, 4, 5, 6, 7, 8]

/-- A 32-byte buffer for an IA32 build: the header declares
`NumArchs = 0x10000000`, and entry 0 is `{CPUYPE_X86, Offset = 24, Size = 8}`. -/
def hugeCountContainer : List Byte :=
  [0xb9, 0xfa, 0xf1, 0x0e, 0, 0, 0, 0x10,
   0x07, 0, 0, 0, 0, 0, 0, 0, 24, 0, 0, 0, 8, 0, 0, 0,
   1, 2, 3, 4, 5, 6, 7, 8]

/-- Scenario C: a buffer that starts like a PE image, not like a fat binary. -/
def scenarioC : List Byte :=
  [0x4d, 0x5a, 0x90, 0, 3, 0, 0, 0, 4, 0, 0, 0]

/-- `EFI_SECURITY_VIOLATION` is `ENCODE_ERROR (26)`. -/
def EFI_SECURITY_VIOLATION : EFI_STATUS := ⟨true, 26⟩

/-- Services like `servicesFor buf`, with a verifier that rejects everything. -/
def rejectingServicesFor (buf : List Byte) : Services where
  GetFileBufferByFilePath := fun _ _ _ => ⟨some buf, buf.length⟩
  VerifyApplePeImageSignature := fun _ _ => EFI_SECURITY_VIOLATION
  OriginalLoadImage := fun _ _ _ _ _ => ⟨EFI_SUCCESS, some 1⟩

/-- A loader of the firmware that loads whatever it is given as handle 7. -/
def firmwareLoader : ExternalLoad := fun _ _ _ _ _ => ⟨EFI_SUCCESS, some 7⟩

/-- An 8-byte buffer for an IA32 build: only a header, which declares
`NumArchs = 0x10000000`. -/
def hugeCountHeader : List Byte :=
  [0xb9, 0xfa, 0xf1, 0x0e, 0, 0, 0, 0x10]

/-! ## Basic facts about reads -/

theorem leValue_lt (bs : List Byte) : leValue bs < 256 ^ bs.length := by
  induction bs with
  | nil => simp [leValue]
  | cons b bs ih =>
    have hb : b.val < 256 := b.isLt
    simp only [leValue, List.length_cons, pow_succ]
    omega

theorem readBytes_length {buf : List Byte} {pos len : Nat} {bs : List Byte}
    (h : readBytes buf pos len = some bs) : bs.length = len := by
  unfold readBytes at h
  split at h
  · cases h
    simp only [List.length_take, List.length_drop]
    omega
  · cases h

theorem readBytes_inside {buf : List Byte} {pos len : Nat} {bs : List Byte}
    (h : readBytes buf pos len = some bs) : pos + len ≤ buf.length := by
  unfold readBytes at h
  split at h
  · assumption
  · cases h

theorem readBytes_of_le {buf : List Byte} {pos len : Nat} (h : pos + len ≤ buf.length) :
    readBytes buf pos len = some ((buf.drop pos).take len) := by
  simp [readBytes, h]

theorem readLE_lt {buf : List Byte} {pos len v : Nat}
    (h : readLE buf pos len = some v) : v < 256 ^ len := by
  unfold readLE at h
  cases hb : readBytes buf pos len with
  | none => simp [hb] at h
  | some bs =>
    simp only [hb, Option.map_some', Option.some.injEq] at h
    have := leValue_lt bs
    rw [readBytes_length hb] at this
    omega

theorem readLE_inside {buf : List Byte} {pos len v : Nat}
    (h : readLE buf pos len = some v) : pos + len ≤ buf.length := by
  unfold readLE at h
  cases hb : readBytes buf pos len with
  | none => simp [hb] at h
  | some bs => exact readBytes_inside hb

theorem readLE_of_le (buf : List Byte) (pos len : Nat) (h : pos + len ≤ buf.length) :
    ∃ v, readLE buf pos len = some v := by
  simp [readLE, readBytes_of_le h]

theorem pow_width_le {w : Nat} (h : w ≤ 4) : 256 ^ w ≤ 2 ^ 32 := by
  calc 256 ^ w ≤ 256 ^ 4 := Nat.pow_le_pow_right (by decide) h
    _ = 2 ^ 32 := by norm_num

theorem CopyMem_AllocateZeroPool {bytes : List Byte} {n : Nat} (h : bytes.length = n) :
    CopyMem (AllocateZeroPool n) bytes n = bytes := by
  subst h
  simp [CopyMem, AllocateZeroPool]

theorem readBytes_congr {s t : List Byte} {pos len : Nat} (hlen : s.length = t.length)
    (h : AgreeOn s t pos (pos + len)) : readBytes s pos len = readBytes t pos len := by
  unfold readBytes
  rw [hlen]
  split
  · congr 1
    apply List.ext_getElem?
    intro i
    by_cases hi : i < len
    · rw [List.getElem?_take_of_lt hi, List.getElem?_take_of_lt hi, List.getElem?_drop,
        List.getElem?_drop]
      exact h (pos + i) (by omega) (by omega)
    · rw [List.getElem?_take_eq_none (by omega), List.getElem?_take_eq_none (by omega)]
  · rfl

theorem readLE_congr {s t : List Byte} (pos len : Nat) (hlen : s.length = t.length)
    (h : AgreeOn s t pos (pos + len)) : readLE s pos len = readLE t pos len := by
  unfold readLE
  rw [readBytes_congr hlen h]

theorem AgreeOn.mono {s t : List Byte} {lo hi lo2 hi2 : Nat} (h : AgreeOn s t lo hi)
    (hlo : lo ≤ lo2) (hhi : hi2 ≤ hi) : AgreeOn s t lo2 hi2 :=
  fun i h1 h2 => h i (by omega) (by omega)

/-! ## Facts about stored fields -/

theorem encodeLE_length (w v : Nat) : (encodeLE w v).length = w := by
  induction w generalizing v with
  | zero => rfl
  | succ w ih => simp [encodeLE, ih]

theorem leValue_encodeLE (w v : Nat) (h : v < 256 ^ w) : leValue (encodeLE w v) = v := by
  induction w generalizing v with
  | zero =>
    simp only [pow_zero, Nat.lt_one_iff] at h
    simp [encodeLE, leValue, h]
  | succ w ih =>
    have hdiv : v / 256 < 256 ^ w := by
      rw [Nat.div_lt_iff_lt_mul (by decide)]
      rw [pow_succ] at h
      exact h
    simp only [encodeLE, leValue, ih (v / 256) hdiv]
    omega

theorem writeBytes_length {buf bs : List Byte} {p : Nat} (h : p + bs.length ≤ buf.length) :
    (writeBytes buf p bs).length = buf.length := by
  simp only [writeBytes, List.length_append, List.length_take, List.length_drop]
  omega

theorem readBytes_writeBytes_same {buf bs : List Byte} {p : Nat}
    (h : p + bs.length ≤ buf.length) :
    readBytes (writeBytes buf p bs) p bs.length = some bs := by
  rw [readBytes_of_le (by rw [writeBytes_length h]; exact h)]
  have hp : (buf.take p).length = p := by
    rw [List.length_take]
    omega
  simp only [writeBytes, List.append_assoc]
  rw [List.drop_left' hp, List.take_left' rfl]

theorem writeBytes_agree {buf bs : List Byte} {p lo hi : Nat}
    (h : p + bs.length ≤ buf.length) (hd : hi ≤ p ∨ p + bs.length ≤ lo) :
    AgreeOn (writeBytes buf p bs) buf lo hi := by
  intro i hi1 hi2
  have hp : (buf.take p).length = p := by
    rw [List.length_take]
    omega
  rcases hd with hd | hd
  · have hip : i < p := by omega
    simp only [writeBytes, List.append_assoc]
    rw [List.getElem?_append_left (by omega), List.getElem?_take_of_lt hip]
  · simp only [writeBytes]
    rw [List.getElem?_append_right (by simp only [List.length_append, hp]; omega)]
    simp only [List.length_append, hp, List.getElem?_drop]
    congr 1
    omega

theorem setField_length {buf : List Byte} {f : Field} (v : Nat)
    (h : f.pos + f.width ≤ buf.length) : (setField buf f v).length = buf.length := by
  unfold setField
  apply writeBytes_length
  rw [encodeLE_length]
  exact h

theorem readLE_setField_same {buf : List Byte} {f : Field} {v : Nat}
    (h : f.pos + f.width ≤ buf.length) (hv : v < 256 ^ f.width) :
    readLE (setField buf f v) f.pos f.width = some v := by
  have h2 : f.pos + (encodeLE f.width v).length ≤ buf.length := by
    rw [encodeLE_length]
    exact h
  have h3 := readBytes_writeBytes_same h2
  rw [encodeLE_length] at h3
  simp only [readLE, setField, h3, Option.map_some', leValue_encodeLE f.width v hv]

theorem readLE_setField_other {buf : List Byte} {f g : Field} (v : Nat)
    (h : f.pos + f.width ≤ buf.length) (hd : f.Disjoint g) :
    readLE (setField buf f v) g.pos g.width = readLE buf g.pos g.width := by
  have h2 : f.pos + (encodeLE f.width v).length ≤ buf.length := by
    rw [encodeLE_length]
    exact h
  apply readLE_congr g.pos g.width (setField_length v h)
  apply writeBytes_agree h2
  rw [encodeLE_length]
  unfold Field.Disjoint at hd
  omega

theorem readLE_append_left {s t : List Byte} {pos len : Nat} (h : pos + len ≤ s.length) :
    readLE (s ++ t) pos len = readLE s pos len := by
  unfold readLE
  rw [readBytes_of_le (by rw [List.length_append]; omega), readBytes_of_le h]
  congr 2
  apply List.ext_getElem?
  intro i
  by_cases hi : i < len
  · rw [List.getElem?_take_of_lt hi, List.getElem?_take_of_lt hi, List.getElem?_drop,
      List.getElem?_drop, List.getElem?_append_left (by omega)]
  · rw [List.getElem?_take_eq_none (by omega), List.getElem?_take_eq_none (by omega)]

theorem readLE_append_right (s t : List Byte) (pos len : Nat) :
    readLE (s ++ t) (s.length + pos) len = readLE t pos len := by
  unfold readLE readBytes
  rw [List.length_append, List.drop_append]
  by_cases h : pos + len ≤ t.length
  · rw [if_pos (by omega), if_pos h]
  · rw [if_neg (by omega), if_neg h]

/-! ## Facts about table entries -/

theorem readArch_eq_some_iff (H : FatDecls) (src : List Byte) (i : Nat) (a : ArchHeader) :
    readArch H src i = some a ↔
      readLE src (H.sizeofHeader + i * H.sizeofArch + H.CpuType.pos) H.CpuType.width
          = some a.CpuType ∧
      readLE src (H.sizeofHeader + i * H.sizeofArch + H.Offset.pos) H.Offset.width
          = some a.Offset ∧
      readLE src (H.sizeofHeader + i * H.sizeofArch + H.Size.pos) H.Size.width
          = some a.Size := by
  cases a with
  | mk c o s =>
    simp only [readArch, bind, Option.bind_eq_some, pure, Option.some.injEq,
      ArchHeader.mk.injEq]
    constructor
    · rintro ⟨c1, hc, o1, ho, s1, hs, rfl, rfl, rfl⟩
      exact ⟨hc, ho, hs⟩
    · rintro ⟨hc, ho, hs⟩
      exact ⟨c, hc, o, ho, s, hs, rfl, rfl, rfl⟩

theorem readArch_bounds {H : FatDecls} (hWF : H.WF) {src : List Byte} {i : Nat}
    {a : ArchHeader} (h : readArch H src i = some a) :
    a.Offset < 2 ^ 32 ∧ a.Size < 2 ^ 32 := by
  obtain ⟨-, -, -, -, ⟨-, ho4, -⟩, ⟨-, hs4, -⟩, -⟩ := hWF
  obtain ⟨-, ho, hs⟩ := (readArch_eq_some_iff H src i a).1 h
  exact ⟨lt_of_lt_of_le (readLE_lt ho) (pow_width_le ho4),
    lt_of_lt_of_le (readLE_lt hs) (pow_width_le hs4)⟩

theorem readArch_of_fits {H : FatDecls} (hWF : H.WF) {src : List Byte} {i : Nat}
    (hfit : H.sizeofHeader + (i + 1) * H.sizeofArch ≤ src.length) :
    ∃ a, readArch H src i = some a := by
  obtain ⟨-, -, -, ⟨-, -, hc⟩, ⟨-, -, ho⟩, ⟨-, -, hs⟩, -⟩ := hWF
  rw [Nat.succ_mul] at hfit
  obtain ⟨c, hc⟩ := readLE_of_le src
    (H.sizeofHeader + i * H.sizeofArch + H.CpuType.pos) H.CpuType.width (by omega)
  obtain ⟨o, ho⟩ := readLE_of_le src
    (H.sizeofHeader + i * H.sizeofArch + H.Offset.pos) H.Offset.width (by omega)
  obtain ⟨z, hs⟩ := readLE_of_le src
    (H.sizeofHeader + i * H.sizeofArch + H.Size.pos) H.Size.width (by omega)
  exact ⟨⟨c, o, z⟩, (readArch_eq_some_iff H src i ⟨c, o, z⟩).2 ⟨hc, ho, hs⟩⟩

theorem readArch_of_table_fits {H : FatDecls} (hWF : H.WF) {src : List Byte} {n i : Nat}
    (hfit : H.sizeofHeader + H.sizeofArch * n ≤ src.length) (hi : i < n) :
    ∃ a, readArch H src i = some a := by
  apply readArch_of_fits hWF
  have : H.sizeofArch * (i + 1) ≤ H.sizeofArch * n := Nat.mul_le_mul_left _ hi
  rw [Nat.mul_comm (i + 1)]
  omega

theorem readArch_congr {H : FatDecls} (hWF : H.WF) {s t : List Byte} {i : Nat}
    (hlen : s.length = t.length)
    (h : AgreeOn s t 0 (H.sizeofHeader + (i + 1) * H.sizeofArch)) :
    readArch H s i = readArch H t i := by
  obtain ⟨-, -, -, ⟨-, -, hc⟩, ⟨-, -, ho⟩, ⟨-, -, hs⟩, -⟩ := hWF
  rw [Nat.succ_mul] at h
  have h1 := readLE_congr (H.sizeofHeader + i * H.sizeofArch + H.CpuType.pos)
    H.CpuType.width hlen (h.mono (by omega) (by omega))
  have h2 := readLE_congr (H.sizeofHeader + i * H.sizeofArch + H.Offset.pos)
    H.Offset.width hlen (h.mono (by omega) (by omega))
  have h3 := readLE_congr (H.sizeofHeader + i * H.sizeofArch + H.Size.pos)
    H.Size.width hlen (h.mono (by omega) (by omega))
  simp only [readArch, h1, h2, h3]

/-! ## Facts about the loop -/

theorem archLoop_skip_one (H : FatDecls) (P : Platform) (src : List Byte)
    (SourceSize : Nat) (ib : Option (List Byte)) (isz : Nat)
    {a : ArchHeader} {i : Nat} (r cur : Nat)
    (h : readArch H src i = some a) (hne : a.CpuType ≠ H.platformCpuType P) :
    archLoop H P src SourceSize ib isz (r + 1) i cur
      = archLoop H P src SourceSize ib isz r (i + 1) ((a.Offset + a.Size) % 2 ^ 64) := by
  simp [archLoop, h, hne]

theorem archLoop_match (H : FatDecls) (P : Platform) (src : List Byte)
    (SourceSize : Nat) (ib : Option (List Byte)) (isz : Nat)
    {a : ArchHeader} {i : Nat} (r cur : Nat)
    (h : readArch H src i = some a) (heq : a.CpuType = H.platformCpuType P) :
    archLoop H P src SourceSize ib isz (r + 1) i cur
      = if a.Offset < cur ∨ a.Offset ≥ SourceSize
            ∨ SourceSize < (a.Offset + a.Size) % 2 ^ 64 then
          some ⟨EFI_INVALID_PARAMETER, ib, isz⟩
        else
          match readBytes src a.Offset (a.Size % 2 ^ P.uintnBits) with
          | none => none
          | some bytes =>
            some ⟨EFI_SUCCESS,
              some (CopyMem (AllocateZeroPool (a.Size % 2 ^ P.uintnBits)) bytes
                (a.Size % 2 ^ P.uintnBits)), a.Size % 2 ^ P.uintnBits⟩ := by
  simp [archLoop, h, heq]

theorem archLoop_skip (H : FatDecls) (P : Platform) (src : List Byte)
    (SourceSize : Nat) (ib : Option (List Byte)) (isz : Nat) (te : Nat) (k : Nat) : ∀ r : Nat,
    (∀ j, j < k → ∃ a, readArch H src j = some a ∧ a.CpuType ≠ H.platformCpuType P) →
    archLoop H P src SourceSize ib isz (k + r) 0 te
      = archLoop H P src SourceSize ib isz r k (SizeOfBinaryAt H src te k) := by
  induction k with
  | zero => intro r _; simp [SizeOfBinaryAt]
  | succ k ih =>
    intro r hall
    obtain ⟨a, ha, hne⟩ := hall k (Nat.lt_succ_self k)
    have h1 := ih (r + 1) (fun j hj => hall j (Nat.lt_succ_of_lt hj))
    have h2 : k + 1 + r = k + (r + 1) := by omega
    rw [h2, h1, archLoop_skip_one H P src SourceSize ib isz r _ ha hne]
    simp [SizeOfBinaryAt, ha]

theorem archLoop_congr {H : FatDecls} (P : Platform) {s t : List Byte} (ss : Nat)
    (ib : Option (List Byte)) (isz : Nat) {k : Nat} {a : ArchHeader}
    (hent : ∀ j, j ≤ k → readArch H s j = readArch H t j)
    (hfirst : ∀ j, j < k → ∀ b, readArch H s j = some b → b.CpuType ≠ H.platformCpuType P)
    (ha : readArch H s k = some a) (heq : a.CpuType = H.platformCpuType P)
    (hbytes : readBytes s a.Offset (a.Size % 2 ^ P.uintnBits)
      = readBytes t a.Offset (a.Size % 2 ^ P.uintnBits)) :
    ∀ r i cur, i ≤ k →
      archLoop H P s ss ib isz r i cur = archLoop H P t ss ib isz r i cur := by
  intro r
  induction r with
  | zero => intro i cur _; rfl
  | succ r ih =>
    intro i cur hik
    rcases Nat.lt_or_ge i k with hlt | hge
    · cases hb : readArch H s i with
      | none =>
        have hb2 : readArch H t i = none := by rw [← hent i hik]; exact hb
        simp [archLoop, hb, hb2]
      | some b =>
        have hb2 : readArch H t i = some b := by rw [← hent i hik]; exact hb
        have hne := hfirst i hlt b hb
        rw [archLoop_skip_one H P s ss ib isz r cur hb hne,
          archLoop_skip_one H P t ss ib isz r cur hb2 hne]
        exact ih (i + 1) _ hlt
    · obtain rfl : i = k := Nat.le_antisymm hik hge
      have ha2 : readArch H t i = some a := by rw [← hent i hik]; exact ha
      rw [archLoop_match H P s ss ib isz r cur ha heq,
        archLoop_match H P t ss ib isz r cur ha2 heq, hbytes]

/-! ## Facts about the header checks -/

theorem uintnBits_le (P : Platform) : 32 ≤ P.uintnBits ∧ P.uintnBits ≤ 64 := by
  cases P <;> simp [Platform.uintnBits]

theorem two_pow_uintnBits (P : Platform) :
    2 ^ 32 ≤ 2 ^ P.uintnBits ∧ 2 ^ P.uintnBits ≤ 2 ^ 64 := by
  cases P <;> simp [Platform.uintnBits]

theorem initialSizeOfBinary_le (H : FatDecls) (P : Platform) (n : Nat) :
    initialSizeOfBinary H P n ≤ H.sizeofHeader + H.sizeofArch * n := by
  unfold initialSizeOfBinary
  rw [Nat.zero_add]
  exact le_trans (Nat.mod_le _ _) (Nat.mod_le _ _)

theorem initialSizeOfBinary_eq (H : FatDecls) (P : Platform) (n : Nat)
    (h : H.sizeofHeader + H.sizeofArch * n < 2 ^ P.uintnBits) :
    initialSizeOfBinary H P n = H.sizeofHeader + H.sizeofArch * n := by
  unfold initialSizeOfBinary
  have h64 := (two_pow_uintnBits P).2
  rw [Nat.zero_add, Nat.mod_eq_of_lt h, Nat.mod_eq_of_lt (lt_of_lt_of_le h h64)]

theorem parse_of_header {H : FatDecls} (hWF : H.WF) (P : Platform) {src : List Byte}
    {n : Nat} (ib : Option (List Byte)) (isz : Nat)
    (hm : readLE src H.Magic.pos H.Magic.width = some H.APPLE_EFI_FAT_MAGIC)
    (hn : readLE src H.NumArchs.pos H.NumArchs.width = some n)
    (hhdr : H.sizeofHeader ≤ src.length) :
    ParseAppleEfiFatBinary H P (some src) src.length ib isz
      = if initialSizeOfBinary H P n > src.length then
          some ⟨EFI_INVALID_PARAMETER, ib, isz⟩
        else archLoop H P src src.length ib isz n 0 (initialSizeOfBinary H P n) := by
  obtain ⟨⟨hw, -, -⟩, -⟩ := hWF
  have hin := readLE_inside hm
  have h0 : src.length ≠ 0 := by omega
  have h1 : ¬ src.length < H.sizeofHeader := by omega
  simp [ParseAppleEfiFatBinary, h0, h1, hm, hn]

theorem SizeOfBinaryAt_le_of_le (H : FatDecls) (src : List Byte) {t u : Nat} (h : t ≤ u)
    (k : Nat) : SizeOfBinaryAt H src t k ≤ SizeOfBinaryAt H src u k := by
  cases k with
  | zero => simpa [SizeOfBinaryAt] using h
  | succ k => simp [SizeOfBinaryAt]

/-- The outcome of the parser on a container whose table fits the buffer and
whose first entry for the platform is entry `k`. -/
theorem parse_first_match {H : FatDecls} (hWF : H.WF) (P : Platform) {src : List Byte}
    {n k : Nat} {a : ArchHeader} (ib : Option (List Byte)) (isz : Nat)
    (hm : readLE src H.Magic.pos H.Magic.width = some H.APPLE_EFI_FAT_MAGIC)
    (hn : readLE src H.NumArchs.pos H.NumArchs.width = some n)
    (hfit : H.sizeofHeader + H.sizeofArch * n ≤ src.length)
    (hk : k < n)
    (hskip : ∀ j, j < k → ∀ b, readArch H src j = some b → b.CpuType ≠ H.platformCpuType P)
    (ha : readArch H src k = some a) (heq : a.CpuType = H.platformCpuType P) :
    ParseAppleEfiFatBinary H P (some src) src.length ib isz
      = if a.Offset < SizeOfBinaryAt H src (initialSizeOfBinary H P n) k
            ∨ a.Offset ≥ src.length ∨ src.length < a.Offset + a.Size then
          some ⟨EFI_INVALID_PARAMETER, ib, isz⟩
        else
          some ⟨EFI_SUCCESS, some ((src.drop a.Offset).take a.Size), a.Size⟩ := by
  have hle := initialSizeOfBinary_le H P n
  rw [parse_of_header hWF P ib isz hm hn (by omega), if_neg (by omega)]
  have hsk : ∀ j, j < k → ∃ b, readArch H src j = some b
      ∧ b.CpuType ≠ H.platformCpuType P := by
    intro j hj
    obtain ⟨b, hb⟩ := readArch_of_table_fits hWF hfit (lt_trans hj hk)
    exact ⟨b, hb, hskip j hj b hb⟩
  obtain ⟨r, rfl⟩ : ∃ r, n = k + (r + 1) := ⟨n - k - 1, by omega⟩
  rw [archLoop_skip H P src src.length ib isz _ k (r + 1) hsk,
    archLoop_match H P src src.length ib isz r _ ha heq]
  obtain ⟨ho, hs⟩ := readArch_bounds hWF ha
  have h32 := (two_pow_uintnBits P).1
  have hmod : (a.Offset + a.Size) % 2 ^ 64 = a.Offset + a.Size :=
    Nat.mod_eq_of_lt (by omega)
  have hmodu : a.Size % 2 ^ P.uintnBits = a.Size := Nat.mod_eq_of_lt (by omega)
  rw [hmod, hmodu]
  by_cases hc : a.Offset < SizeOfBinaryAt H src (initialSizeOfBinary H P (k + (r + 1))) k
      ∨ a.Offset ≥ src.length ∨ src.length < a.Offset + a.Size
  · rw [if_pos hc, if_pos hc]
  · rw [if_neg hc, if_neg hc]
    have hin : a.Offset + a.Size ≤ src.length := by omega
    rw [readBytes_of_le hin]
    simp only
    rw [CopyMem_AllocateZeroPool]
    simp only [List.length_take, List.length_drop]
    omega

/-- The outcome of the parser on a container whose table fits the buffer and
holds no entry for the platform. -/
theorem parse_of_no_match {H : FatDecls} (hWF : H.WF) (P : Platform) {src : List Byte}
    {n : Nat} (ib : Option (List Byte)) (isz : Nat)
    (hm : readLE src H.Magic.pos H.Magic.width = some H.APPLE_EFI_FAT_MAGIC)
    (hn : readLE src H.NumArchs.pos H.NumArchs.width = some n)
    (hfit : H.sizeofHeader + H.sizeofArch * n ≤ src.length)
    (hskip : ∀ j, j < n → ∀ b, readArch H src j = some b → b.CpuType ≠ H.platformCpuType P) :
    ParseAppleEfiFatBinary H P (some src) src.length ib isz
      = some ⟨EFI_UNSUPPORTED, ib, isz⟩ := by
  have hle := initialSizeOfBinary_le H P n
  rw [parse_of_header hWF P ib isz hm hn (by omega), if_neg (by omega)]
  have hsk : ∀ j, j < n → ∃ b, readArch H src j = some b
      ∧ b.CpuType ≠ H.platformCpuType P := by
    intro j hj
    obtain ⟨b, hb⟩ := readArch_of_table_fits hWF hfit hj
    exact ⟨b, hb, hskip j hj b hb⟩
  have := archLoop_skip H P src src.length ib isz (initialSizeOfBinary H P n) n 0 hsk
  rw [Nat.add_zero] at this
  rw [this]
  rfl

theorem SizeOfBinaryAt_zero (H : FatDecls) (src : List Byte) (t : Nat) :
    SizeOfBinaryAt H src t 0 = t := rfl

theorem SizeOfBinaryAt_succ {H : FatDecls} (hWF : H.WF) {src : List Byte} (t : Nat)
    {j : Nat} {b : ArchHeader} (hb : readArch H src j = some b) :
    SizeOfBinaryAt H src t (j + 1) = b.Offset + b.Size := by
  obtain ⟨ho, hs⟩ := readArch_bounds hWF hb
  simp only [SizeOfBinaryAt, hb]
  exact Nat.mod_eq_of_lt (by omega)

theorem parse_success_magic {H : FatDecls} {P : Platform} {src : List Byte} {ss : Nat}
    {ib img : Option (List Byte)} {isz sz : Nat}
    (h : ParseAppleEfiFatBinary H P (some src) ss ib isz = some ⟨EFI_SUCCESS, img, sz⟩) :
    readLE src H.Magic.pos H.Magic.width = some H.APPLE_EFI_FAT_MAGIC
      ∧ ∃ n, readLE src H.NumArchs.pos H.NumArchs.width = some n
        ∧ archLoop H P src ss ib isz n 0 (initialSizeOfBinary H P n)
            = some ⟨EFI_SUCCESS, img, sz⟩ := by
  unfold ParseAppleEfiFatBinary at h
  simp only at h
  split at h
  · simp [EFI_UNSUPPORTED, EFI_SUCCESS] at h
  · split at h
    · simp [EFI_INVALID_PARAMETER, EFI_SUCCESS] at h
    · split at h
      · cases h
      · rename_i magic hmag
        split at h
        · simp [EFI_UNSUPPORTED, EFI_SUCCESS] at h
        · rename_i hmeq
          have hmeq2 : magic = H.APPLE_EFI_FAT_MAGIC := by
            by_contra hne
            exact hmeq hne
          split at h
          · cases h
          · rename_i n hnum
            split at h
            · simp [EFI_INVALID_PARAMETER, EFI_SUCCESS] at h
            · exact ⟨hmeq2 ▸ hmag, n, hnum, h⟩

/-- Among the first `n` entries, either no entry has the platform CPU type
or there is a first one. -/
theorem first_match_or_none (H : FatDecls) (P : Platform) (src : List Byte) (n : Nat) :
    (∀ j, j < n → ∀ b, readArch H src j = some b → b.CpuType ≠ H.platformCpuType P)
    ∨ ∃ k a, k < n ∧ readArch H src k = some a ∧ a.CpuType = H.platformCpuType P
        ∧ ∀ j, j < k → ∀ b, readArch H src j = some b → b.CpuType ≠ H.platformCpuType P := by
  classical
  by_cases hex : ∃ k, k < n ∧ ∃ a, readArch H src k = some a
      ∧ a.CpuType = H.platformCpuType P
  · right
    obtain ⟨hk, a, ha, heq⟩ := Nat.find_spec hex
    refine ⟨Nat.find hex, a, hk, ha, heq, ?_⟩
    intro j hj b hb hbeq
    exact Nat.find_min hex hj ⟨lt_trans hj hk, b, hb, hbeq⟩
  · left
    intro j hj b hb hbeq
    exact hex ⟨j, hj, b, hb, hbeq⟩

/-! ## Facts about the synthetic container -/

theorem platformCpuType_lt {H : FatDecls} (hWF : H.WF) (P : Platform) :
    H.platformCpuType P < 256 ^ H.CpuType.width := by
  obtain ⟨-, -, -, -, -, -, -, -, -, -, h86, h64, -⟩ := hWF
  cases P
  · exact h86
  · exact h64

theorem archLoop_success_size {H : FatDecls} (P : Platform) (src : List Byte) (ss : Nat)
    (ib : Option (List Byte)) (isz : Nat) {img : Option (List Byte)} {sz : Nat} :
    ∀ r i cur, archLoop H P src ss ib isz r i cur = some ⟨EFI_SUCCESS, img, sz⟩ →
      ∃ bytes, img = some bytes ∧ bytes.length = sz ∧ sz < 256 ^ H.Size.width := by
  intro r
  induction r with
  | zero =>
    intro i cur h
    simp [archLoop, EFI_UNSUPPORTED, EFI_SUCCESS] at h
  | succ r ih =>
    intro i cur h
    cases ha : readArch H src i with
    | none => simp [archLoop, ha] at h
    | some a =>
      by_cases heq : a.CpuType = H.platformCpuType P
      · rw [archLoop_match H P src ss ib isz r cur ha heq] at h
        split at h
        · simp [EFI_INVALID_PARAMETER, EFI_SUCCESS] at h
        · cases hb : readBytes src a.Offset (a.Size % 2 ^ P.uintnBits) with
          | none => simp [hb] at h
          | some bytes =>
            have hlen := readBytes_length hb
            simp only [hb, Option.some.injEq, ParseResult.mk.injEq, true_and] at h
            obtain ⟨himg, hsz⟩ := h
            rw [CopyMem_AllocateZeroPool hlen] at himg
            obtain ⟨-, -, hs⟩ := (readArch_eq_some_iff H src i a).1 ha
            have hlt := readLE_lt hs
            have hmod := Nat.mod_le a.Size (2 ^ P.uintnBits)
            exact ⟨bytes, himg.symm, by omega, by omega⟩
      · rw [archLoop_skip_one H P src ss ib isz r cur ha heq] at h
        exact ih _ _ h

theorem syntheticHeader_length {H : FatDecls} (hWF : H.WF) :
    (syntheticHeader H).length = H.sizeofHeader := by
  obtain ⟨⟨-, -, hm⟩, ⟨-, -, hn⟩, -⟩ := hWF
  have h1 : (setField (List.replicate H.sizeofHeader 0) H.Magic H.APPLE_EFI_FAT_MAGIC).length
      = H.sizeofHeader := by
    rw [setField_length _ (by simpa using hm), List.length_replicate]
  unfold syntheticHeader
  rw [setField_length _ (by rw [h1]; exact hn), h1]

theorem syntheticHeader_Magic {H : FatDecls} (hWF : H.WF) :
    readLE (syntheticHeader H) H.Magic.pos H.Magic.width = some H.APPLE_EFI_FAT_MAGIC := by
  obtain ⟨⟨-, -, hm⟩, ⟨-, -, hn⟩, hd, -, -, -, -, -, -, hv, -⟩ := hWF
  have h0 : H.Magic.pos + H.Magic.width ≤ (List.replicate H.sizeofHeader (0 : Byte)).length := by
    simpa using hm
  have h1 : (setField (List.replicate H.sizeofHeader 0) H.Magic H.APPLE_EFI_FAT_MAGIC).length
      = H.sizeofHeader := by
    rw [setField_length _ h0, List.length_replicate]
  unfold syntheticHeader
  rw [readLE_setField_other 1 (by rw [h1]; exact hn)
      (by unfold Field.Disjoint at hd ⊢; omega),
    readLE_setField_same h0 hv]

theorem syntheticHeader_NumArchs {H : FatDecls} (hWF : H.WF) :
    readLE (syntheticHeader H) H.NumArchs.pos H.NumArchs.width = some 1 := by
  obtain ⟨⟨-, -, hm⟩, ⟨hw, -, hn⟩, -⟩ := hWF
  have h0 : H.Magic.pos + H.Magic.width ≤ (List.replicate H.sizeofHeader (0 : Byte)).length := by
    simpa using hm
  have h1 : (setField (List.replicate H.sizeofHeader 0) H.Magic H.APPLE_EFI_FAT_MAGIC).length
      = H.sizeofHeader := by
    rw [setField_length _ h0, List.length_replicate]
  unfold syntheticHeader
  exact readLE_setField_same (by rw [h1]; exact hn) (Nat.one_lt_pow (by omega) (by decide))

theorem syntheticEntry_length {H : FatDecls} (hWF : H.WF) (P : Platform) (size : Nat) :
    (syntheticEntry H P size).length = H.sizeofArch := by
  obtain ⟨-, -, -, ⟨-, -, hc⟩, ⟨-, -, ho⟩, ⟨-, -, hs⟩, -⟩ := hWF
  have h0 : H.CpuType.pos + H.CpuType.width
      ≤ (List.replicate H.sizeofArch (0 : Byte)).length := by simpa using hc
  have h1 : (setField (List.replicate H.sizeofArch 0) H.CpuType
      (H.platformCpuType P)).length = H.sizeofArch := by
    rw [setField_length _ h0, List.length_replicate]
  have h2 : (setField (setField (List.replicate H.sizeofArch 0) H.CpuType
      (H.platformCpuType P)) H.Offset (H.sizeofHeader + H.sizeofArch)).length
      = H.sizeofArch := by
    rw [setField_length _ (by rw [h1]; exact ho), h1]
  unfold syntheticEntry
  rw [setField_length _ (by rw [h2]; exact hs), h2]

theorem syntheticEntry_fields {H : FatDecls} (hWF : H.WF) (P : Platform) {size : Nat}
    (hsize : size < 256 ^ H.Size.width) :
    readLE (syntheticEntry H P size) H.CpuType.pos H.CpuType.width
        = some (H.platformCpuType P)
      ∧ readLE (syntheticEntry H P size) H.Offset.pos H.Offset.width
        = some (H.sizeofHeader + H.sizeofArch)
      ∧ readLE (syntheticEntry H P size) H.Size.pos H.Size.width = some size := by
  have hcpu := platformCpuType_lt hWF P
  obtain ⟨-, -, -, ⟨-, -, hc⟩, ⟨-, -, ho⟩, ⟨-, -, hs⟩, hco, hcs, hos, -, -, -, hv⟩ := hWF
  have h0 : H.CpuType.pos + H.CpuType.width
      ≤ (List.replicate H.sizeofArch (0 : Byte)).length := by simpa using hc
  have h1 : (setField (List.replicate H.sizeofArch 0) H.CpuType
      (H.platformCpuType P)).length = H.sizeofArch := by
    rw [setField_length _ h0, List.length_replicate]
  have h2 : (setField (setField (List.replicate H.sizeofArch 0) H.CpuType
      (H.platformCpuType P)) H.Offset (H.sizeofHeader + H.sizeofArch)).length
      = H.sizeofArch := by
    rw [setField_length _ (by rw [h1]; exact ho), h1]
  unfold syntheticEntry
  refine ⟨?_, ?_, ?_⟩
  · rw [readLE_setField_other size (by rw [h2]; exact hs)
        (by unfold Field.Disjoint at hcs ⊢; omega),
      readLE_setField_other _ (by rw [h1]; exact ho)
        (by unfold Field.Disjoint at hco ⊢; omega),
      readLE_setField_same h0 hcpu]
  · rw [readLE_setField_other size (by rw [h2]; exact hs)
        (by unfold Field.Disjoint at hos ⊢; omega),
      readLE_setField_same (by rw [h1]; exact ho) hv]
  · exact readLE_setField_same (by rw [h2]; exact hs) hsize

theorem wrapSingleArch_length {H : FatDecls} (hWF : H.WF) (P : Platform) (img : List Byte) :
    (wrapSingleArch H P img).length = H.sizeofHeader + H.sizeofArch + img.length := by
  simp only [wrapSingleArch, List.length_append, syntheticHeader_length hWF,
    syntheticEntry_length hWF P]

theorem wrapSingleArch_readArch {H : FatDecls} (hWF : H.WF) (P : Platform) {img : List Byte}
    (hsize : img.length < 256 ^ H.Size.width) :
    readArch H (wrapSingleArch H P img) 0
      = some ⟨H.platformCpuType P, H.sizeofHeader + H.sizeofArch, img.length⟩ := by
  obtain ⟨hc, ho, hs⟩ := syntheticEntry_fields hWF P hsize
  have hlenH := syntheticHeader_length hWF
  have hlenE := syntheticEntry_length hWF P img.length
  obtain ⟨-, -, -, ⟨-, -, hci⟩, ⟨-, -, hoi⟩, ⟨-, -, hsi⟩, -⟩ := hWF
  have key : ∀ pos len, pos + len ≤ H.sizeofArch →
      readLE (syntheticHeader H ++ (syntheticEntry H P img.length ++ img))
        (H.sizeofHeader + pos) len = readLE (syntheticEntry H P img.length) pos len := by
    intro pos len h
    have hr := readLE_append_right (syntheticHeader H)
      (syntheticEntry H P img.length ++ img) pos len
    rw [hlenH] at hr
    rw [hr, readLE_append_left (by omega)]
  rw [readArch_eq_some_iff]
  simp only [Nat.zero_mul, Nat.add_zero, wrapSingleArch, List.append_assoc]
  exact ⟨(key _ _ hci).trans hc, (key _ _ hoi).trans ho, (key _ _ hsi).trans hs⟩

theorem wrapSingleArch_payload {H : FatDecls} (hWF : H.WF) (P : Platform) (img : List Byte) :
    ((wrapSingleArch H P img).drop (H.sizeofHeader + H.sizeofArch)).take img.length
      = img := by
  have hlen : (syntheticHeader H ++ syntheticEntry H P img.length).length
      = H.sizeofHeader + H.sizeofArch := by
    rw [List.length_append, syntheticHeader_length hWF, syntheticEntry_length hWF P]
  unfold wrapSingleArch
  rw [List.drop_left' hlen, List.take_length]

/-! ## The parser on well-formed and malformed containers -/

/-- Claim C1: when the magic number is the recognized one, the table fits the buffer,
exactly one entry (entry `k`) has the platform CPU type, and that entry lies at or
after the running value of `SizeOfBinary`, starts inside the buffer and ends
inside it, the parser returns `EFI_SUCCESS` and its image buffer holds exactly
the `Size` bytes `src[Offset .. Offset + Size)`. -/
theorem parse_extracts_single_match {H : FatDecls} (hWF : H.WF) (P : Platform)
    (src : List Byte) (n k : Nat) (a : ArchHeader) (ib : Option (List Byte)) (isz : Nat)
    (hm : readLE src H.Magic.pos H.Magic.width = some H.APPLE_EFI_FAT_MAGIC)
    (hn : readLE src H.NumArchs.pos H.NumArchs.width = some n)
    (hfit : H.sizeofHeader + H.sizeofArch * n ≤ src.length)
    (hk : k < n) (ha : readArch H src k = some a)
    (heq : a.CpuType = H.platformCpuType P)
    (hone : ∀ j, j < n → j ≠ k →
      ∀ b, readArch H src j = some b → b.CpuType ≠ H.platformCpuType P)
    (hcur : SizeOfBinaryAt H src (H.sizeofHeader + H.sizeofArch * n) k ≤ a.Offset)
    (hoff : a.Offset < src.length) (hend : a.Offset + a.Size ≤ src.length) :
    ParseAppleEfiFatBinary H P (some src) src.length ib isz
        = some ⟨EFI_SUCCESS, some ((src.drop a.Offset).take a.Size), a.Size⟩
      ∧ ((src.drop a.Offset).take a.Size).length = a.Size := by
  have hcur2 := SizeOfBinaryAt_le_of_le H src (initialSizeOfBinary_le H P n) k
  constructor
  · rw [parse_first_match hWF P ib isz hm hn hfit hk
      (fun j hj b hb => hone j (lt_trans hj hk) (Nat.ne_of_lt hj) b hb) ha heq,
      if_neg (by omega)]
  · simp only [List.length_take, List.length_drop]
    omega

/-- Scenario A: the parser extracts the payload 1..8. -/
theorem scenarioA_extracted :
    ParseAppleEfiFatBinary scenarioDecls .X64 (some scenarioA) 32 none 0
      = some ⟨EFI_SUCCESS, some [1, 2, 3, 4, 5, 6, 7, 8], 8⟩ :=
  (parse_extracts_single_match (H := scenarioDecls) (by decide) .X64 scenarioA 1 0
    ⟨0x01000007, 24, 8⟩ none 0 (by decide) (by decide) (by decide) (by decide)
    (by decide) (by decide) (fun j hj hne => absurd (Nat.lt_one_iff.1 hj) hne)
    (by decide) (by decide) (by decide)).1

/-- Claim C2: when the magic number is the recognized one, the table fits the buffer,
and the first entry with the platform CPU type has `Offset + Size` (as exact
integers) greater than the buffer length, the parser returns
`EFI_INVALID_PARAMETER`. -/
theorem parse_rejects_overlong_match {H : FatDecls} (hWF : H.WF) (P : Platform)
    (src : List Byte) (n k : Nat) (a : ArchHeader) (ib : Option (List Byte)) (isz : Nat)
    (hm : readLE src H.Magic.pos H.Magic.width = some H.APPLE_EFI_FAT_MAGIC)
    (hn : readLE src H.NumArchs.pos H.NumArchs.width = some n)
    (hfit : H.sizeofHeader + H.sizeofArch * n ≤ src.length)
    (hk : k < n)
    (hfirst : ∀ j, j < k →
      ∀ b, readArch H src j = some b → b.CpuType ≠ H.platformCpuType P)
    (ha : readArch H src k = some a) (heq : a.CpuType = H.platformCpuType P)
    (hover : src.length < a.Offset + a.Size) :
    ParseAppleEfiFatBinary H P (some src) src.length ib isz
      = some ⟨EFI_INVALID_PARAMETER, ib, isz⟩ := by
  rw [parse_first_match hWF P ib isz hm hn hfit hk hfirst ha heq,
    if_pos (Or.inr (Or.inr hover))]

/-- Scenario B: the entry claims one byte past the end of the buffer. -/
theorem scenarioB_malformed :
    ParseAppleEfiFatBinary scenarioDecls .X64 (some scenarioB) 32 none 0
      = some ⟨EFI_INVALID_PARAMETER, none, 0⟩ :=
  parse_rejects_overlong_match (H := scenarioDecls) (by decide) .X64 scenarioB 1 0
    ⟨0x01000007, 24, 9⟩ none 0 (by decide) (by decide) (by decide) (by decide)
    (fun j hj => absurd hj (Nat.not_lt_zero j)) (by decide) (by decide) (by decide)

/-- Where the sum of lines 58-60 does not exceed the range of `UINTN`, a table
that does not fit the buffer is rejected with `EFI_INVALID_PARAMETER`. -/
theorem oversized_table_rejected_of_nowrap {H : FatDecls} (hWF : H.WF) (P : Platform)
    (src : List Byte) (n : Nat) (ib : Option (List Byte)) (isz : Nat)
    (hm : readLE src H.Magic.pos H.Magic.width = some H.APPLE_EFI_FAT_MAGIC)
    (hn : readLE src H.NumArchs.pos H.NumArchs.width = some n)
    (hlen : H.sizeofHeader ≤ src.length)
    (hnowrap : H.sizeofHeader + H.sizeofArch * n < 2 ^ P.uintnBits)
    (hover : src.length < H.sizeofHeader + H.sizeofArch * n) :
    ParseAppleEfiFatBinary H P (some src) src.length ib isz
      = some ⟨EFI_INVALID_PARAMETER, ib, isz⟩ := by
  rw [parse_of_header hWF P ib isz hm hn hlen, initialSizeOfBinary_eq H P n hnowrap,
    if_pos hover]

/-- On an X64 build the sum of lines 58-60 never exceeds the range of `UINTN`,
so every table that does not fit the buffer is rejected. -/
theorem oversized_table_rejected_X64 {H : FatDecls} (hWF : H.WF)
    (src : List Byte) (n : Nat) (ib : Option (List Byte)) (isz : Nat)
    (hm : readLE src H.Magic.pos H.Magic.width = some H.APPLE_EFI_FAT_MAGIC)
    (hn : readLE src H.NumArchs.pos H.NumArchs.width = some n)
    (hlen : H.sizeofHeader ≤ src.length)
    (hover : src.length < H.sizeofHeader + H.sizeofArch * n) :
    ParseAppleEfiFatBinary H .X64 (some src) src.length ib isz
      = some ⟨EFI_INVALID_PARAMETER, ib, isz⟩ := by
  apply oversized_table_rejected_of_nowrap hWF .X64 src n ib isz hm hn hlen _ hover
  obtain ⟨-, ⟨-, hn4, -⟩, -, -, ⟨-, ho4, -⟩, -, -, -, -, -, -, -, hsz⟩ := hWF
  have h1 : n < 2 ^ 32 := lt_of_lt_of_le (readLE_lt hn) (pow_width_le hn4)
  have h2 : H.sizeofHeader + H.sizeofArch < 2 ^ 32 := lt_of_lt_of_le hsz (pow_width_le ho4)
  have h4 : H.sizeofArch * n ≤ H.sizeofArch * (2 ^ 32 - 1) :=
    Nat.mul_le_mul_left _ (by omega)
  have h5 : H.sizeofArch * (2 ^ 32 - 1) ≤ (2 ^ 32 - 1) * (2 ^ 32 - 1) :=
    Nat.mul_le_mul_right _ (by omega)
  simp only [Platform.uintnBits]
  norm_num at h1 h2 h4 h5 ⊢
  omega

/-- Claim C3 on an IA32 build: the header of `hugeCountContainer` declares
`0x10000000` entries, so header and table need 4294967304 bytes, far more than
the 32 bytes of the buffer; the 32-bit sum of lines 58-60 wraps to 8, the check
of line 62 passes, entry 0 is read, and the parser returns `EFI_SUCCESS`. -/
theorem hugeCount_accepted_on_IA32 :
    readLE hugeCountContainer scenarioDecls.NumArchs.pos scenarioDecls.NumArchs.width
        = some 0x10000000
      ∧ hugeCountContainer.length
          < scenarioDecls.sizeofHeader + scenarioDecls.sizeofArch * 0x10000000
      ∧ initialSizeOfBinary scenarioDecls .IA32 0x10000000 = 8
      ∧ ParseAppleEfiFatBinary scenarioDecls .IA32 (some hugeCountContainer)
          hugeCountContainer.length none 0
          = some ⟨EFI_SUCCESS, some [1, 2, 3, 4, 5, 6, 7, 8], 8⟩ := by
  decide

/-- Claim C4, as the code has it: a buffer shorter than the header is rejected with
`EFI_INVALID_PARAMETER` when it is not empty, and answered with
`EFI_UNSUPPORTED` when it is empty. -/
theorem parse_short_buffer (H : FatDecls) (P : Platform) (src : List Byte)
    (ib : Option (List Byte)) (isz : Nat) (hshort : src.length < H.sizeofHeader) :
    (src.length ≠ 0 →
      ParseAppleEfiFatBinary H P (some src) src.length ib isz
        = some ⟨EFI_INVALID_PARAMETER, ib, isz⟩)
    ∧ (src.length = 0 →
      ParseAppleEfiFatBinary H P (some src) src.length ib isz
        = some ⟨EFI_UNSUPPORTED, ib, isz⟩) := by
  constructor
  · intro h0
    simp [ParseAppleEfiFatBinary, h0, hshort]
  · intro h0
    simp [ParseAppleEfiFatBinary, h0]

/-- A two-byte buffer is rejected with `EFI_INVALID_PARAMETER`. -/
theorem two_byte_buffer_malformed :
    ParseAppleEfiFatBinary scenarioDecls .X64 (some [0xb9, 0xfa]) 2 none 0
      = some ⟨EFI_INVALID_PARAMETER, none, 0⟩ :=
  (parse_short_buffer scenarioDecls .X64 [0xb9, 0xfa] none 0 (by decide)).1 (by decide)

/-- Claim C4 fails for the empty buffer: it is shorter than the header, and the parser
returns `EFI_UNSUPPORTED`, not `EFI_INVALID_PARAMETER`. -/
theorem empty_buffer_unsupported :
    ([] : List Byte).length < scenarioDecls.sizeofHeader
      ∧ ParseAppleEfiFatBinary scenarioDecls .X64 (some []) ([] : List Byte).length none 0
          = some ⟨EFI_UNSUPPORTED, none, 0⟩
      ∧ ParseAppleEfiFatBinary scenarioDecls .X64 (some []) ([] : List Byte).length none 0
          ≠ some ⟨EFI_INVALID_PARAMETER, none, 0⟩ := by
  decide

/-- Claim C5: a buffer at least one header long whose magic member differs from
`APPLE_EFI_FAT_MAGIC` gets `EFI_UNSUPPORTED`, whatever its other bytes are. -/
theorem parse_wrong_magic {H : FatDecls} (hWF : H.WF) (P : Platform) (src : List Byte)
    (ib : Option (List Byte)) (isz : Nat) (hlen : H.sizeofHeader ≤ src.length)
    (hm : readLE src H.Magic.pos H.Magic.width ≠ some H.APPLE_EFI_FAT_MAGIC) :
    ParseAppleEfiFatBinary H P (some src) src.length ib isz
      = some ⟨EFI_UNSUPPORTED, ib, isz⟩ := by
  obtain ⟨⟨-, -, hin⟩, -⟩ := hWF
  obtain ⟨m, hread⟩ := readLE_of_le src H.Magic.pos H.Magic.width (by omega)
  have hne : m ≠ H.APPLE_EFI_FAT_MAGIC := by
    intro h
    exact hm (h ▸ hread)
  have h1 : ¬ src.length < H.sizeofHeader := by omega
  by_cases h0 : src.length = 0
  · simp [ParseAppleEfiFatBinary, h0]
  · simp [ParseAppleEfiFatBinary, h0, h1, hread, hne]

/-- Scenario C: a buffer that starts like a PE image is not a fat binary. -/
theorem scenarioC_unsupported :
    ParseAppleEfiFatBinary scenarioDecls .X64
        (some [0x4d, 0x5a, 0x90, 0, 3, 0, 0, 0, 4, 0, 0, 0]) 12 none 0
      = some ⟨EFI_UNSUPPORTED, none, 0⟩ :=
  parse_wrong_magic (H := scenarioDecls) (by decide) .X64
    [0x4d, 0x5a, 0x90, 0, 3, 0, 0, 0, 4, 0, 0, 0] none 0 (by decide) (by decide)

/-- Claim C6: the outcome is decided by the first entry with the platform CPU type.
Two buffers of the same length that hold the same bytes in the header, in the
entries up to and including the first such entry (entry `k`), and in the range
`[Offset, Offset + Size)` of that entry get the same result (status and image),
whatever the later entries and the other bytes are. -/
theorem parse_depends_on_first_match {H : FatDecls} (hWF : H.WF) (P : Platform)
    (s t : List Byte) (k : Nat) (a : ArchHeader) (ib : Option (List Byte)) (isz : Nat)
    (hlen : s.length = t.length)
    (hhead : AgreeOn s t 0 (H.sizeofHeader + (k + 1) * H.sizeofArch))
    (hfirst : ∀ j, j < k →
      ∀ b, readArch H s j = some b → b.CpuType ≠ H.platformCpuType P)
    (ha : readArch H s k = some a) (heq : a.CpuType = H.platformCpuType P)
    (hrange : AgreeOn s t a.Offset (a.Offset + a.Size)) :
    ParseAppleEfiFatBinary H P (some s) s.length ib isz
      = ParseAppleEfiFatBinary H P (some t) t.length ib isz := by
  have hent : ∀ j, j ≤ k → readArch H s j = readArch H t j := by
    intro j hj
    apply readArch_congr hWF hlen
    apply hhead.mono (Nat.le_refl 0)
    have : (j + 1) * H.sizeofArch ≤ (k + 1) * H.sizeofArch :=
      Nat.mul_le_mul_right _ (by omega)
    omega
  have hbytes : readBytes s a.Offset (a.Size % 2 ^ P.uintnBits)
      = readBytes t a.Offset (a.Size % 2 ^ P.uintnBits) := by
    apply readBytes_congr hlen
    apply hrange.mono (Nat.le_refl _)
    have := Nat.mod_le a.Size (2 ^ P.uintnBits)
    omega
  obtain ⟨⟨-, -, hmi⟩, ⟨-, -, hni⟩, -⟩ := hWF
  have hmag : readLE s H.Magic.pos H.Magic.width = readLE t H.Magic.pos H.Magic.width :=
    readLE_congr _ _ hlen (hhead.mono (Nat.zero_le _) (by omega))
  have hnum : readLE s H.NumArchs.pos H.NumArchs.width
      = readLE t H.NumArchs.pos H.NumArchs.width :=
    readLE_congr _ _ hlen (hhead.mono (Nat.zero_le _) (by omega))
  have hloop := archLoop_congr P t.length ib isz hent hfirst ha heq hbytes
  unfold ParseAppleEfiFatBinary
  simp only [hlen, hmag, hnum]
  split
  · rfl
  · split
    · rfl
    · split
      · rfl
      · split
        · rfl
        · split
          · rfl
          · rw [hloop _ 0 _ (Nat.zero_le k)]

/-- The buffers `twoMatchesA` and `twoMatchesB` differ only after the first
matching entry and outside its range, and get the same result. -/
theorem twoMatches_same_result :
    ParseAppleEfiFatBinary scenarioDecls .X64 (some twoMatchesA) 48 none 0
      = ParseAppleEfiFatBinary scenarioDecls .X64 (some twoMatchesB) 48 none 0 :=
  parse_depends_on_first_match (H := scenarioDecls) (by decide) .X64 twoMatchesA
    twoMatchesB 0 ⟨0x01000007, 40, 4⟩ none 0 (by decide) (by decide)
    (fun j hj => absurd hj (Nat.not_lt_zero j)) (by decide) (by decide) (by decide)

/-- Claim C7: when the magic number is the recognized one, the table fits the buffer
and no entry has the platform CPU type (in particular when `NumArchs` is 0), the
parser returns `EFI_UNSUPPORTED`, whatever `Offset` and `Size` the entries
hold. -/
theorem parse_no_matching_arch {H : FatDecls} (hWF : H.WF) (P : Platform)
    (src : List Byte) (n : Nat) (ib : Option (List Byte)) (isz : Nat)
    (hm : readLE src H.Magic.pos H.Magic.width = some H.APPLE_EFI_FAT_MAGIC)
    (hn : readLE src H.NumArchs.pos H.NumArchs.width = some n)
    (hfit : H.sizeofHeader + H.sizeofArch * n ≤ src.length)
    (hnone : ∀ j, j < n →
      ∀ b, readArch H src j = some b → b.CpuType ≠ H.platformCpuType P) :
    ParseAppleEfiFatBinary H P (some src) src.length ib isz
      = some ⟨EFI_UNSUPPORTED, ib, isz⟩ :=
  parse_of_no_match hWF P ib isz hm hn hfit hnone

/-- Scenario A read on an IA32 build: its only entry is for X64. -/
theorem scenarioA_unsupported_on_IA32 :
    ParseAppleEfiFatBinary scenarioDecls .IA32 (some scenarioA) 32 none 0
      = some ⟨EFI_UNSUPPORTED, none, 0⟩ :=
  parse_no_matching_arch (H := scenarioDecls) (by decide) .IA32 scenarioA 1 none 0
    (by decide) (by decide) (by decide)
    (fun j hj b hb => by
      obtain rfl : j = 0 := Nat.lt_one_iff.1 hj
      have h0 : readArch scenarioDecls scenarioA 0 = some ⟨0x01000007, 24, 8⟩ := by decide
      rw [h0] at hb
      cases hb
      decide)

/-- Claim C8, as the code has it: when the parser returns `EFI_SUCCESS` on a container
whose table fits the buffer, the image comes from the first entry `k` with the
platform CPU type, and that entry satisfies: `Offset` is at least the value of
`SizeOfBinary` at that iteration (the end of header and table when `k = 0`, and
`Offset + Size` of entry `k - 1` otherwise), `Offset` is less than the buffer
length, and `Offset + Size` is at most the buffer length. -/
theorem parse_success_entry_bounds {H : FatDecls} (hWF : H.WF) (P : Platform)
    (src : List Byte) (n : Nat) (ib img : Option (List Byte)) (isz sz : Nat)
    (hsize : src.length < 2 ^ P.uintnBits)
    (hn : readLE src H.NumArchs.pos H.NumArchs.width = some n)
    (hfit : H.sizeofHeader + H.sizeofArch * n ≤ src.length)
    (hres : ParseAppleEfiFatBinary H P (some src) src.length ib isz
      = some ⟨EFI_SUCCESS, img, sz⟩) :
    ∃ k a, k < n ∧ readArch H src k = some a ∧ a.CpuType = H.platformCpuType P
      ∧ (∀ j, j < k → ∀ b, readArch H src j = some b → b.CpuType ≠ H.platformCpuType P)
      ∧ SizeOfBinaryAt H src (H.sizeofHeader + H.sizeofArch * n) k ≤ a.Offset
      ∧ (k = 0 → H.sizeofHeader + H.sizeofArch * n ≤ a.Offset)
      ∧ (∀ j b, j + 1 = k → readArch H src j = some b → b.Offset + b.Size ≤ a.Offset)
      ∧ a.Offset < src.length ∧ a.Offset + a.Size ≤ src.length
      ∧ img = some ((src.drop a.Offset).take a.Size) ∧ sz = a.Size := by
  obtain ⟨hm, -⟩ := parse_success_magic hres
  rcases first_match_or_none H P src n with hnone | ⟨k, a, hk, ha, heq, hfirst⟩
  · rw [parse_of_no_match hWF P ib isz hm hn hfit hnone] at hres
    simp [EFI_UNSUPPORTED, EFI_SUCCESS] at hres
  · rw [parse_first_match hWF P ib isz hm hn hfit hk hfirst ha heq,
      initialSizeOfBinary_eq H P n (by omega)] at hres
    split at hres
    · simp [EFI_INVALID_PARAMETER, EFI_SUCCESS] at hres
    · rename_i hc
      simp only [Option.some.injEq, ParseResult.mk.injEq, true_and] at hres
      obtain ⟨himg, hsz⟩ := hres
      have hcur : SizeOfBinaryAt H src (H.sizeofHeader + H.sizeofArch * n) k ≤ a.Offset := by
        omega
      refine ⟨k, a, hk, ha, heq, hfirst, hcur, ?_, ?_, by omega, by omega, himg.symm,
        hsz.symm⟩
      · intro h0
        subst h0
        simpa [SizeOfBinaryAt] using hcur
      · intro j b hj hb
        subst hj
        rw [SizeOfBinaryAt_succ hWF _ hb] at hcur
        exact hcur

/-- Scenario A: the entry behind the extracted image lies after header and
table and inside the buffer. -/
theorem scenarioA_selected_entry :
    ∃ k a, k < 1 ∧ readArch scenarioDecls scenarioA k = some a
      ∧ a.CpuType = scenarioDecls.platformCpuType .X64
      ∧ (∀ j, j < k → ∀ b, readArch scenarioDecls scenarioA j = some b →
          b.CpuType ≠ scenarioDecls.platformCpuType .X64)
      ∧ SizeOfBinaryAt scenarioDecls scenarioA
          (scenarioDecls.sizeofHeader + scenarioDecls.sizeofArch * 1) k ≤ a.Offset
      ∧ (k = 0 → scenarioDecls.sizeofHeader + scenarioDecls.sizeofArch * 1 ≤ a.Offset)
      ∧ (∀ j b, j + 1 = k → readArch scenarioDecls scenarioA j = some b →
          b.Offset + b.Size ≤ a.Offset)
      ∧ a.Offset < scenarioA.length ∧ a.Offset + a.Size ≤ scenarioA.length
      ∧ some [1, 2, 3, 4, 5, 6, 7, 8] = some ((scenarioA.drop a.Offset).take a.Size)
      ∧ 8 = a.Size :=
  parse_success_entry_bounds (H := scenarioDecls) (by decide) .X64 scenarioA 1 none
    (some [1, 2, 3, 4, 5, 6, 7, 8]) 0 8 (by decide) (by decide) (by decide) (by decide)

/-- Claim C8 fails on `overlapContainer`: the parser returns `EFI_SUCCESS` with the
image taken from entry 2, whose `Offset` 0 is below the end of header and table
(56) and below the end of entry 0 (64); the image is the container header
itself. -/
theorem overlapContainer_extracts_header :
    ParseAppleEfiFatBinary scenarioDecls .X64 (some overlapContainer)
        overlapContainer.length none 0
        = some ⟨EFI_SUCCESS, some [0xb9, 0xfa, 0xf1, 0x0e, 3, 0, 0, 0], 8⟩
      ∧ readLE overlapContainer scenarioDecls.NumArchs.pos scenarioDecls.NumArchs.width
          = some 3
      ∧ readArch scenarioDecls overlapContainer 0 = some ⟨0x00000007, 56, 8⟩
      ∧ readArch scenarioDecls overlapContainer 1 = some ⟨0x00000007, 0, 0⟩
      ∧ readArch scenarioDecls overlapContainer 2 = some ⟨0x01000007, 0, 8⟩
      ∧ 0 < scenarioDecls.sizeofHeader + scenarioDecls.sizeofArch * 3
      ∧ 0 < 56 + 8 := by
  decide

/-- Claim C9, as the code has it: when the parser returns `EFI_SUCCESS` with a
non-empty image `img`, the synthetic single-architecture container around
`img` is accepted by the parser, with `EFI_SUCCESS` and the same image again. -/
theorem wrap_roundtrip {H : FatDecls} (hWF : H.WF) (P : Platform) (src img : List Byte)
    (sz : Nat) (ib : Option (List Byte)) (isz : Nat)
    (hres : ParseAppleEfiFatBinary H P (some src) src.length ib isz
      = some ⟨EFI_SUCCESS, some img, sz⟩)
    (hne : img ≠ []) :
    ParseAppleEfiFatBinary H P (some (wrapSingleArch H P img))
        (wrapSingleArch H P img).length ib isz
      = some ⟨EFI_SUCCESS, some img, sz⟩ := by
  obtain ⟨-, n, -, hloop⟩ := parse_success_magic hres
  obtain ⟨bytes, hb, hlen, hlt⟩ := archLoop_success_size P src src.length ib isz _ _ _ hloop
  obtain rfl : bytes = img := (Option.some.inj hb).symm
  subst hlen
  have hpos : 0 < bytes.length := List.length_pos.2 hne
  have hwlen := wrapSingleArch_length hWF P bytes
  have hm : readLE (wrapSingleArch H P bytes) H.Magic.pos H.Magic.width
      = some H.APPLE_EFI_FAT_MAGIC := by
    have hin := hWF.1.2.2
    unfold wrapSingleArch
    rw [List.append_assoc, readLE_append_left (by rw [syntheticHeader_length hWF]; exact hin)]
    exact syntheticHeader_Magic hWF
  have hn : readLE (wrapSingleArch H P bytes) H.NumArchs.pos H.NumArchs.width = some 1 := by
    have hin := hWF.2.1.2.2
    unfold wrapSingleArch
    rw [List.append_assoc, readLE_append_left (by rw [syntheticHeader_length hWF]; exact hin)]
    exact syntheticHeader_NumArchs hWF
  have hinit := initialSizeOfBinary_le H P 1
  rw [parse_first_match hWF P ib isz hm hn (by omega) Nat.zero_lt_one
      (fun j hj => absurd hj (Nat.not_lt_zero j)) (wrapSingleArch_readArch hWF P hlt) rfl,
    if_neg (by simp only [SizeOfBinaryAt]; omega)]
  simp only [wrapSingleArch_payload hWF P bytes]

/-- Scenario A: wrapping the extracted payload 1..8 gives a container from which
the parser extracts 1..8 again. -/
theorem scenarioA_rewrapped :
    ParseAppleEfiFatBinary scenarioDecls .X64
        (some (wrapSingleArch scenarioDecls .X64 [1, 2, 3, 4, 5, 6, 7, 8]))
        (wrapSingleArch scenarioDecls .X64 [1, 2, 3, 4, 5, 6, 7, 8]).length none 0
      = some ⟨EFI_SUCCESS, some [1, 2, 3, 4, 5, 6, 7, 8], 8⟩ :=
  wrap_roundtrip (H := scenarioDecls) (by decide) .X64 scenarioA [1, 2, 3, 4, 5, 6, 7, 8] 8
    none 0 (by decide) (by decide)

/-- Claim C9 fails for the empty image: the parser extracts an empty image from
`emptyImageContainer`, and rejects the synthetic container around the empty
image with `EFI_INVALID_PARAMETER`, because its entry has `Offset` equal to the
buffer length. -/
theorem empty_image_not_rewrapped :
    ParseAppleEfiFatBinary scenarioDecls .X64 (some emptyImageContainer)
        emptyImageContainer.length none 0
        = some ⟨EFI_SUCCESS, some [], 0⟩
      ∧ ParseAppleEfiFatBinary scenarioDecls .X64
          (some (wrapSingleArch scenarioDecls .X64 []))
          (wrapSingleArch scenarioDecls .X64 []).length none 0
        = some ⟨EFI_INVALID_PARAMETER, none, 0⟩ := by
  decide

/-! ## The dispatcher -/

/-- Claim C10, as the code has it: when the fetched buffer makes the parser return
`EFI_INVALID_PARAMETER` (or any other error status), `LoadImageEx` does not
reject the request itself: it calls `OriginalLoadImage` once, with the fetched
buffer and size unchanged, and returns its result; the verifier is not called. -/
theorem LoadImageEx_parse_error_falls_back (H : FatDecls) (P : Platform) (S : Services)
    (BootPolicy : Bool) (ParentImageHandle : EFI_HANDLE) (FilePath : DevicePath)
    (SourceBuffer : Option (List Byte)) (SourceSize : Nat) (buf : List Byte)
    (parsed : ParseResult)
    (hbuf : (S.GetFileBufferByFilePath BootPolicy FilePath SourceSize).Buffer = some buf)
    (hsize : (S.GetFileBufferByFilePath BootPolicy FilePath SourceSize).FileSize ≠ 0)
    (hparse : ParseAppleEfiFatBinary H P (some buf)
      (S.GetFileBufferByFilePath BootPolicy FilePath SourceSize).FileSize none 0
        = some parsed)
    (herr : EFI_ERROR parsed.Status = true) :
    LoadImageEx H P S BootPolicy ParentImageHandle FilePath SourceBuffer SourceSize
      = some ⟨(S.OriginalLoadImage BootPolicy ParentImageHandle FilePath (some buf)
            (S.GetFileBufferByFilePath BootPolicy FilePath SourceSize).FileSize).Status,
          (S.OriginalLoadImage BootPolicy ParentImageHandle FilePath (some buf)
            (S.GetFileBufferByFilePath BootPolicy FilePath SourceSize).FileSize).ImageHandle,
          [Call.GetFileBufferByFilePath BootPolicy FilePath,
           Call.ParseAppleEfiFatBinary (some buf)
            (S.GetFileBufferByFilePath BootPolicy FilePath SourceSize).FileSize none 0,
           Call.OriginalLoadImage BootPolicy ParentImageHandle FilePath (some buf)
            (S.GetFileBufferByFilePath BootPolicy FilePath SourceSize).FileSize]⟩ := by
  simp [LoadImageEx, hbuf, hsize, hparse, herr]

/-- Scenario B sent through `LoadImageEx`: the parser returns
`EFI_INVALID_PARAMETER`, and the original loader is called with the 32 fetched
bytes. -/
theorem scenarioB_falls_back :
    LoadImageEx scenarioDecls .X64 (servicesFor scenarioB) false 0 0 none 0
      = some ⟨EFI_SUCCESS, some 1,
          [Call.GetFileBufferByFilePath false 0,
           Call.ParseAppleEfiFatBinary (some scenarioB) 32 none 0,
           Call.OriginalLoadImage false 0 0 (some scenarioB) 32]⟩ :=
  LoadImageEx_parse_error_falls_back scenarioDecls .X64 (servicesFor scenarioB) false 0 0
    none 0 scenarioB ⟨EFI_INVALID_PARAMETER, none, 0⟩ (by decide) (by decide) (by decide)
    (by decide)

/-- Claim C10 fails on scenario B: the parser returns `EFI_INVALID_PARAMETER`, yet the
request is not rejected; `OriginalLoadImage` is called with the original bytes
and its status (`EFI_SUCCESS`) and handle are the result of the request. -/
theorem scenarioB_not_rejected :
    ParseAppleEfiFatBinary scenarioDecls .X64 (some scenarioB) 32 none 0
        = some ⟨EFI_INVALID_PARAMETER, none, 0⟩
      ∧ ∃ o, LoadImageEx scenarioDecls .X64 (servicesFor scenarioB) false 0 0 none 0 = some o
        ∧ o.Status = EFI_SUCCESS ∧ o.ImageHandle = some 1
        ∧ Call.OriginalLoadImage false 0 0 (some scenarioB) 32 ∈ o.calls :=
  ⟨by decide, _, rfl, by decide, by decide, by decide⟩

/-- The path of `LoadImageEx` after a successful parse: the verifier is called
with the caller's `ImageBuffer` and `ImageSize`, which are `NULL` and 0, and its
status is returned; no loader is called and no handle is stored. -/
theorem LoadImageEx_of_parse_success (H : FatDecls) (P : Platform) (S : Services)
    (BootPolicy : Bool) (ParentImageHandle : EFI_HANDLE) (FilePath : DevicePath)
    (SourceBuffer : Option (List Byte)) (SourceSize : Nat) (buf : List Byte)
    (parsed : ParseResult)
    (hbuf : (S.GetFileBufferByFilePath BootPolicy FilePath SourceSize).Buffer = some buf)
    (hsize : (S.GetFileBufferByFilePath BootPolicy FilePath SourceSize).FileSize ≠ 0)
    (hparse : ParseAppleEfiFatBinary H P (some buf)
      (S.GetFileBufferByFilePath BootPolicy FilePath SourceSize).FileSize none 0
        = some parsed)
    (hok : EFI_ERROR parsed.Status = false) :
    LoadImageEx H P S BootPolicy ParentImageHandle FilePath SourceBuffer SourceSize
      = some ⟨S.VerifyApplePeImageSignature none 0, none,
          [Call.GetFileBufferByFilePath BootPolicy FilePath,
           Call.ParseAppleEfiFatBinary (some buf)
            (S.GetFileBufferByFilePath BootPolicy FilePath SourceSize).FileSize none 0,
           Call.VerifyApplePeImageSignature none 0]⟩ := by
  simp [LoadImageEx, hbuf, hsize, hparse, hok]

/-- The path of `LoadImageEx` after a failed parse: the original loader is
called with the fetched buffer and its result is returned. -/
theorem LoadImageEx_of_parse_error (H : FatDecls) (P : Platform) (S : Services)
    (BootPolicy : Bool) (ParentImageHandle : EFI_HANDLE) (FilePath : DevicePath)
    (SourceBuffer : Option (List Byte)) (SourceSize : Nat) (buf : List Byte)
    (parsed : ParseResult)
    (hbuf : (S.GetFileBufferByFilePath BootPolicy FilePath SourceSize).Buffer = some buf)
    (hsize : (S.GetFileBufferByFilePath BootPolicy FilePath SourceSize).FileSize ≠ 0)
    (hparse : ParseAppleEfiFatBinary H P (some buf)
      (S.GetFileBufferByFilePath BootPolicy FilePath SourceSize).FileSize none 0
        = some parsed)
    (herr : EFI_ERROR parsed.Status = true) :
    LoadImageEx H P S BootPolicy ParentImageHandle FilePath SourceBuffer SourceSize
      = some ⟨(S.OriginalLoadImage BootPolicy ParentImageHandle FilePath (some buf)
            (S.GetFileBufferByFilePath BootPolicy FilePath SourceSize).FileSize).Status,
          (S.OriginalLoadImage BootPolicy ParentImageHandle FilePath (some buf)
            (S.GetFileBufferByFilePath BootPolicy FilePath SourceSize).FileSize).ImageHandle,
          [Call.GetFileBufferByFilePath BootPolicy FilePath,
           Call.ParseAppleEfiFatBinary (some buf)
            (S.GetFileBufferByFilePath BootPolicy FilePath SourceSize).FileSize none 0,
           Call.OriginalLoadImage BootPolicy ParentImageHandle FilePath (some buf)
            (S.GetFileBufferByFilePath BootPolicy FilePath SourceSize).FileSize]⟩ := by
  simp [LoadImageEx, hbuf, hsize, hparse, herr]

/-- Claim C11 on scenario A: the parser extracts the image 1..8 and the verifier
succeeds, yet `LoadImageEx` returns the verifier's `EFI_SUCCESS` right away: no
loader is called, with the image or with anything else, and no handle is
stored. -/
theorem scenarioA_verified_not_loaded :
    ParseAppleEfiFatBinary scenarioDecls .X64 (some scenarioA) 32 none 0
        = some ⟨EFI_SUCCESS, some [1, 2, 3, 4, 5, 6, 7, 8], 8⟩
      ∧ EFI_ERROR ((servicesFor scenarioA).VerifyApplePeImageSignature none 0) = false
      ∧ LoadImageEx scenarioDecls .X64 (servicesFor scenarioA) false 0 0 none 0
        = some ⟨EFI_SUCCESS, none,
            [Call.GetFileBufferByFilePath false 0,
             Call.ParseAppleEfiFatBinary (some scenarioA) 32 none 0,
             Call.VerifyApplePeImageSignature none 0]⟩
      ∧ (servicesFor scenarioA).OriginalLoadImage false 0 0
          (some [1, 2, 3, 4, 5, 6, 7, 8]) 8 = ⟨EFI_SUCCESS, some 1⟩ := by
  decide

/-- Claim C12 on scenario A: the parser's own `ImageBuffer` and `ImageSize` hold the
image 1..8 and the length 8, but the verifier is called with `NULL` and 0, and is
never called with the image. -/
theorem scenarioA_verifier_gets_null :
    (∃ parsed, ParseAppleEfiFatBinary scenarioDecls .X64 (some scenarioA) 32 none 0
        = some parsed
      ∧ parsed.ImageBuffer = some [1, 2, 3, 4, 5, 6, 7, 8] ∧ parsed.ImageSize = 8)
      ∧ ∃ o, LoadImageEx scenarioDecls .X64 (servicesFor scenarioA) false 0 0 none 0 = some o
        ∧ Call.VerifyApplePeImageSignature none 0 ∈ o.calls
        ∧ Call.VerifyApplePeImageSignature (some [1, 2, 3, 4, 5, 6, 7, 8]) 8 ∉ o.calls :=
  ⟨⟨⟨EFI_SUCCESS, some [1, 2, 3, 4, 5, 6, 7, 8], 8⟩, by decide, rfl, rfl⟩,
    _, rfl, by decide, by decide⟩

/-- Claim C13: when the fetched buffer is not empty and the parser returns
`EFI_UNSUPPORTED`, `LoadImageEx` calls `OriginalLoadImage` once, with the same
`BootPolicy`, parent handle and path and with the fetched buffer and size
unchanged, does not call the verifier, and returns the loader's status and
handle.  In particular this is so for every fetched buffer at least one header
long whose magic member differs from `APPLE_EFI_FAT_MAGIC`. -/
theorem LoadImageEx_not_fat_falls_back (H : FatDecls) (P : Platform) (S : Services)
    (BootPolicy : Bool) (ParentImageHandle : EFI_HANDLE) (FilePath : DevicePath)
    (SourceBuffer : Option (List Byte)) (SourceSize : Nat) (buf : List Byte)
    (hbuf : (S.GetFileBufferByFilePath BootPolicy FilePath SourceSize).Buffer = some buf)
    (hsize : (S.GetFileBufferByFilePath BootPolicy FilePath SourceSize).FileSize ≠ 0)
    (hnot : (∃ parsed, ParseAppleEfiFatBinary H P (some buf)
          (S.GetFileBufferByFilePath BootPolicy FilePath SourceSize).FileSize none 0
            = some parsed ∧ parsed.Status = EFI_UNSUPPORTED)
      ∨ (H.WF
        ∧ (S.GetFileBufferByFilePath BootPolicy FilePath SourceSize).FileSize = buf.length
        ∧ H.sizeofHeader ≤ buf.length
        ∧ readLE buf H.Magic.pos H.Magic.width ≠ some H.APPLE_EFI_FAT_MAGIC)) :
    LoadImageEx H P S BootPolicy ParentImageHandle FilePath SourceBuffer SourceSize
      = some ⟨(S.OriginalLoadImage BootPolicy ParentImageHandle FilePath (some buf)
            (S.GetFileBufferByFilePath BootPolicy FilePath SourceSize).FileSize).Status,
          (S.OriginalLoadImage BootPolicy ParentImageHandle FilePath (some buf)
            (S.GetFileBufferByFilePath BootPolicy FilePath SourceSize).FileSize).ImageHandle,
          [Call.GetFileBufferByFilePath BootPolicy FilePath,
           Call.ParseAppleEfiFatBinary (some buf)
            (S.GetFileBufferByFilePath BootPolicy FilePath SourceSize).FileSize none 0,
           Call.OriginalLoadImage BootPolicy ParentImageHandle FilePath (some buf)
            (S.GetFileBufferByFilePath BootPolicy FilePath SourceSize).FileSize]⟩ := by
  rcases hnot with ⟨parsed, hparse, hst⟩ | ⟨hWF, hlen, hhdr, hm⟩
  · exact LoadImageEx_of_parse_error H P S BootPolicy ParentImageHandle FilePath
      SourceBuffer SourceSize buf parsed hbuf hsize hparse (by rw [hst]; rfl)
  · obtain ⟨⟨-, -, hin⟩, -⟩ := hWF
    obtain ⟨m, hread⟩ := readLE_of_le buf H.Magic.pos H.Magic.width (by omega)
    have hne : m ≠ H.APPLE_EFI_FAT_MAGIC := by
      intro h
      exact hm (h ▸ hread)
    have h0 : buf.length ≠ 0 := by rw [← hlen]; exact hsize
    have h1 : ¬ buf.length < H.sizeofHeader := by omega
    have hparse : ParseAppleEfiFatBinary H P (some buf)
        (S.GetFileBufferByFilePath BootPolicy FilePath SourceSize).FileSize none 0
          = some ⟨EFI_UNSUPPORTED, none, 0⟩ := by
      rw [hlen]
      simp [ParseAppleEfiFatBinary, h0, h1, hread, hne]
    exact LoadImageEx_of_parse_error H P S BootPolicy ParentImageHandle FilePath
      SourceBuffer SourceSize buf _ hbuf hsize hparse rfl

/-- Scenario C sent through `LoadImageEx`: the original loader gets the 12
fetched bytes and its result is the result of the request. -/
theorem scenarioC_falls_back :
    LoadImageEx scenarioDecls .X64 (servicesFor scenarioC) true 5 9 none 0
      = some ⟨EFI_SUCCESS, some 1,
          [Call.GetFileBufferByFilePath true 9,
           Call.ParseAppleEfiFatBinary (some scenarioC) 12 none 0,
           Call.OriginalLoadImage true 5 9 (some scenarioC) 12]⟩ :=
  LoadImageEx_not_fat_falls_back scenarioDecls .X64 (servicesFor scenarioC) true 5 9
    none 0 scenarioC (by decide) (by decide)
    (Or.inr ⟨by decide, by decide, by decide, by decide⟩)

/-- Claim C14: when the provider returns `NULL` or leaves a size of 0, `LoadImageEx`
returns `EFI_INVALID_PARAMETER` and calls neither the parser, nor the verifier,
nor the original loader. -/
theorem LoadImageEx_no_buffer (H : FatDecls) (P : Platform) (S : Services)
    (BootPolicy : Bool) (ParentImageHandle : EFI_HANDLE) (FilePath : DevicePath)
    (SourceBuffer : Option (List Byte)) (SourceSize : Nat)
    (hnone : (S.GetFileBufferByFilePath BootPolicy FilePath SourceSize).Buffer = none
      ∨ (S.GetFileBufferByFilePath BootPolicy FilePath SourceSize).FileSize = 0) :
    LoadImageEx H P S BootPolicy ParentImageHandle FilePath SourceBuffer SourceSize
      = some ⟨EFI_INVALID_PARAMETER, none,
          [Call.GetFileBufferByFilePath BootPolicy FilePath]⟩ := by
  rcases hnone with h | h
  · simp [LoadImageEx, h]
  · simp [LoadImageEx, h]

/-- Scenario D: a zero-length buffer is rejected with `EFI_INVALID_PARAMETER`. -/
theorem scenarioD_rejected :
    LoadImageEx scenarioDecls .X64 (servicesFor []) false 0 0 none 0
      = some ⟨EFI_INVALID_PARAMETER, none, [Call.GetFileBufferByFilePath false 0]⟩ :=
  LoadImageEx_no_buffer scenarioDecls .X64 (servicesFor []) false 0 0 none 0
    (Or.inr (by decide))

/-- Claim C15: when the parser returns `EFI_SUCCESS` and the verifier, called by
`LoadImageEx`, returns an error status, the request ends with exactly that
status; the calls made are the provider, the parser and the verifier, so no
loader is called, and no handle is stored. -/
theorem LoadImageEx_verifier_failure (H : FatDecls) (P : Platform) (S : Services)
    (BootPolicy : Bool) (ParentImageHandle : EFI_HANDLE) (FilePath : DevicePath)
    (SourceBuffer : Option (List Byte)) (SourceSize : Nat) (buf : List Byte)
    (img : Option (List Byte)) (sz : Nat)
    (hbuf : (S.GetFileBufferByFilePath BootPolicy FilePath SourceSize).Buffer = some buf)
    (hsize : (S.GetFileBufferByFilePath BootPolicy FilePath SourceSize).FileSize ≠ 0)
    (hparse : ParseAppleEfiFatBinary H P (some buf)
      (S.GetFileBufferByFilePath BootPolicy FilePath SourceSize).FileSize none 0
        = some ⟨EFI_SUCCESS, img, sz⟩)
    (hfail : EFI_ERROR (S.VerifyApplePeImageSignature none 0) = true) :
    ∃ o, LoadImageEx H P S BootPolicy ParentImageHandle FilePath SourceBuffer SourceSize
        = some o
      ∧ o.Status = S.VerifyApplePeImageSignature none 0
      ∧ EFI_ERROR o.Status = true
      ∧ o.ImageHandle = none
      ∧ o.calls = [Call.GetFileBufferByFilePath BootPolicy FilePath,
          Call.ParseAppleEfiFatBinary (some buf)
            (S.GetFileBufferByFilePath BootPolicy FilePath SourceSize).FileSize none 0,
          Call.VerifyApplePeImageSignature none 0] :=
  ⟨_, LoadImageEx_of_parse_success H P S BootPolicy ParentImageHandle FilePath
      SourceBuffer SourceSize buf _ hbuf hsize hparse rfl, rfl, hfail, rfl, rfl⟩

/-- Scenario A with a verifier that rejects: the request ends with the verifier's
`EFI_SECURITY_VIOLATION`. -/
theorem scenarioA_verifier_rejects :
    ∃ o, LoadImageEx scenarioDecls .X64 (rejectingServicesFor scenarioA) false 0 0 none 0
        = some o
      ∧ o.Status = EFI_SECURITY_VIOLATION
      ∧ EFI_ERROR o.Status = true
      ∧ o.ImageHandle = none
      ∧ o.calls = [Call.GetFileBufferByFilePath false 0,
          Call.ParseAppleEfiFatBinary (some scenarioA) 32 none 0,
          Call.VerifyApplePeImageSignature none 0] :=
  LoadImageEx_verifier_failure scenarioDecls .X64 (rejectingServicesFor scenarioA)
    false 0 0 none 0 scenarioA (some [1, 2, 3, 4, 5, 6, 7, 8]) 8 (by decide) (by decide)
    (by decide) (by decide)

/-- The path of `AppleLoadImage` for a buffer that is not empty and passes the
verifier: the request is handed to `gBS->LoadImage`. -/
theorem AppleLoadImage_delegates (H : FatDecls) (P : Platform) (S : Services)
    (LoadImage : ImageLoadFn) (BootPolicy : Bool) (ParentImageHandle : EFI_HANDLE)
    (FilePath : DevicePath) (SourceBuffer : Option (List Byte)) (SourceSize Version : Nat)
    (buf : List Byte)
    (hbuf : (S.GetFileBufferByFilePath BootPolicy FilePath SourceSize).Buffer = some buf)
    (hsize : (S.GetFileBufferByFilePath BootPolicy FilePath SourceSize).FileSize ≠ 0)
    (hok : EFI_ERROR (S.VerifyApplePeImageSignature (some buf)
      (S.GetFileBufferByFilePath BootPolicy FilePath SourceSize).FileSize) = false) :
    AppleLoadImage H P S LoadImage BootPolicy ParentImageHandle FilePath SourceBuffer
        SourceSize Version
      = (LoadImage.invoke H P S BootPolicy ParentImageHandle FilePath (some buf)
          (S.GetFileBufferByFilePath BootPolicy FilePath SourceSize).FileSize).map
        fun loaded => ⟨loaded.Status, loaded.ImageHandle,
          [Call.GetFileBufferByFilePath BootPolicy FilePath,
           Call.VerifyApplePeImageSignature (some buf)
            (S.GetFileBufferByFilePath BootPolicy FilePath SourceSize).FileSize,
           Call.gBS_LoadImage BootPolicy ParentImageHandle FilePath (some buf)
            (S.GetFileBufferByFilePath BootPolicy FilePath SourceSize).FileSize]
          ++ loaded.calls⟩ := by
  cases hl : LoadImage.invoke H P S BootPolicy ParentImageHandle FilePath (some buf)
      (S.GetFileBufferByFilePath BootPolicy FilePath SourceSize).FileSize with
  | none => simp [AppleLoadImage, hbuf, hsize, hok, hl]
  | some loaded => simp [AppleLoadImage, hbuf, hsize, hok, hl]

/-- Claim C16: `AppleLoadImage` returns `EFI_INVALID_PARAMETER` when the provider
returns `NULL` or a size of 0; otherwise, when the verifier rejects the fetched
bytes, it returns the verifier's status without calling a loader; otherwise it
calls `gBS->LoadImage` with the fetched buffer and size unchanged and returns
that loader's status and handle. -/
theorem AppleLoadImage_result (H : FatDecls) (P : Platform) (S : Services)
    (LoadImage : ImageLoadFn) (BootPolicy : Bool) (ParentImageHandle : EFI_HANDLE)
    (FilePath : DevicePath) (SourceBuffer : Option (List Byte)) (SourceSize Version : Nat) :
    (((S.GetFileBufferByFilePath BootPolicy FilePath SourceSize).Buffer = none
        ∨ (S.GetFileBufferByFilePath BootPolicy FilePath SourceSize).FileSize = 0) →
      AppleLoadImage H P S LoadImage BootPolicy ParentImageHandle FilePath SourceBuffer
          SourceSize Version
        = some ⟨EFI_INVALID_PARAMETER, none,
            [Call.GetFileBufferByFilePath BootPolicy FilePath]⟩)
    ∧ ∀ buf, (S.GetFileBufferByFilePath BootPolicy FilePath SourceSize).Buffer = some buf →
      (S.GetFileBufferByFilePath BootPolicy FilePath SourceSize).FileSize ≠ 0 →
      (EFI_ERROR (S.VerifyApplePeImageSignature (some buf)
          (S.GetFileBufferByFilePath BootPolicy FilePath SourceSize).FileSize) = true →
        AppleLoadImage H P S LoadImage BootPolicy ParentImageHandle FilePath SourceBuffer
            SourceSize Version
          = some ⟨S.VerifyApplePeImageSignature (some buf)
                (S.GetFileBufferByFilePath BootPolicy FilePath SourceSize).FileSize, none,
              [Call.GetFileBufferByFilePath BootPolicy FilePath,
               Call.VerifyApplePeImageSignature (some buf)
                (S.GetFileBufferByFilePath BootPolicy FilePath SourceSize).FileSize]⟩)
      ∧ (EFI_ERROR (S.VerifyApplePeImageSignature (some buf)
          (S.GetFileBufferByFilePath BootPolicy FilePath SourceSize).FileSize) = false →
        AppleLoadImage H P S LoadImage BootPolicy ParentImageHandle FilePath SourceBuffer
            SourceSize Version
          = (LoadImage.invoke H P S BootPolicy ParentImageHandle FilePath (some buf)
              (S.GetFileBufferByFilePath BootPolicy FilePath SourceSize).FileSize).map
            fun loaded => ⟨loaded.Status, loaded.ImageHandle,
              [Call.GetFileBufferByFilePath BootPolicy FilePath,
               Call.VerifyApplePeImageSignature (some buf)
                (S.GetFileBufferByFilePath BootPolicy FilePath SourceSize).FileSize,
               Call.gBS_LoadImage BootPolicy ParentImageHandle FilePath (some buf)
                (S.GetFileBufferByFilePath BootPolicy FilePath SourceSize).FileSize]
              ++ loaded.calls⟩) := by
  refine ⟨?_, ?_⟩
  · rintro (h | h)
    · simp [AppleLoadImage, h]
    · simp [AppleLoadImage, h]
  · intro buf hbuf hsize
    refine ⟨?_, ?_⟩
    · intro hfail
      simp [AppleLoadImage, hbuf, hsize, hfail]
    · intro hok
      exact AppleLoadImage_delegates H P S LoadImage BootPolicy ParentImageHandle FilePath
        SourceBuffer SourceSize Version buf hbuf hsize hok

/-- Scenario C sent through `AppleLoadImage` while `gBS->LoadImage` is a loader of
the firmware: that loader gets the 12 fetched bytes and its result is returned. -/
theorem scenarioC_AppleLoadImage_firmware :
    AppleLoadImage scenarioDecls .X64 (servicesFor scenarioC)
        (ImageLoadFn.firmware firmwareLoader) false 0 0 none 0 0
      = some ⟨EFI_SUCCESS, some 7,
          [Call.GetFileBufferByFilePath false 0,
           Call.VerifyApplePeImageSignature (some scenarioC) 12,
           Call.gBS_LoadImage false 0 0 (some scenarioC) 12]⟩ :=
  ((AppleLoadImage_result scenarioDecls .X64 (servicesFor scenarioC)
    (ImageLoadFn.firmware firmwareLoader) false 0 0 none 0 0).2 scenarioC rfl
      (by decide)).2 (by decide)

/-- Claim C17, as the code has it: `AppleImageLoaderEntryPoint` returns
`EFI_SUCCESS`, keeps the previous loader in `OriginalLoadImage` and makes
`gBS->LoadImage` point at `LoadImageEx`.  Afterwards a request through
`AppleLoadImage` whose buffer is not empty and passes the verifier delegates to
`LoadImageEx`: the trace is the provider, the verifier, the call through
`gBS->LoadImage` and then the calls of `LoadImageEx`, which fetches the file
again and, when that buffer is not empty, calls `ParseAppleEfiFatBinary`. -/
theorem AppleLoadImage_after_entry (H : FatDecls) (P : Platform) (S : Services)
    (firmwareLoadImage : ExternalLoad) (BootPolicy : Bool)
    (ParentImageHandle : EFI_HANDLE) (FilePath : DevicePath)
    (SourceBuffer : Option (List Byte)) (SourceSize Version : Nat) (buf : List Byte)
    (hbuf : (S.GetFileBufferByFilePath BootPolicy FilePath SourceSize).Buffer = some buf)
    (hsize : (S.GetFileBufferByFilePath BootPolicy FilePath SourceSize).FileSize ≠ 0)
    (hok : EFI_ERROR (S.VerifyApplePeImageSignature (some buf)
      (S.GetFileBufferByFilePath BootPolicy FilePath SourceSize).FileSize) = false) :
    (AppleImageLoaderEntryPoint S firmwareLoadImage).Status = EFI_SUCCESS
    ∧ (AppleImageLoaderEntryPoint S firmwareLoadImage).services.OriginalLoadImage
        = firmwareLoadImage
    ∧ AppleLoadImage H P (AppleImageLoaderEntryPoint S firmwareLoadImage).services
          (AppleImageLoaderEntryPoint S firmwareLoadImage).LoadImage
          BootPolicy ParentImageHandle FilePath SourceBuffer SourceSize Version
        = (LoadImageEx H P (AppleImageLoaderEntryPoint S firmwareLoadImage).services
            BootPolicy ParentImageHandle FilePath (some buf)
            (S.GetFileBufferByFilePath BootPolicy FilePath SourceSize).FileSize).map
          (fun loaded => ⟨loaded.Status, loaded.ImageHandle,
            [Call.GetFileBufferByFilePath BootPolicy FilePath,
             Call.VerifyApplePeImageSignature (some buf)
              (S.GetFileBufferByFilePath BootPolicy FilePath SourceSize).FileSize,
             Call.gBS_LoadImage BootPolicy ParentImageHandle FilePath (some buf)
              (S.GetFileBufferByFilePath BootPolicy FilePath SourceSize).FileSize]
            ++ loaded.calls⟩)
    ∧ ∀ again o,
        (S.GetFileBufferByFilePath BootPolicy FilePath
          (S.GetFileBufferByFilePath BootPolicy FilePath SourceSize).FileSize).Buffer
            = some again →
        (S.GetFileBufferByFilePath BootPolicy FilePath
          (S.GetFileBufferByFilePath BootPolicy FilePath SourceSize).FileSize).FileSize
            ≠ 0 →
        AppleLoadImage H P (AppleImageLoaderEntryPoint S firmwareLoadImage).services
            (AppleImageLoaderEntryPoint S firmwareLoadImage).LoadImage
            BootPolicy ParentImageHandle FilePath SourceBuffer SourceSize Version
          = some o →
        Call.ParseAppleEfiFatBinary (some again)
          (S.GetFileBufferByFilePath BootPolicy FilePath
            (S.GetFileBufferByFilePath BootPolicy FilePath SourceSize).FileSize).FileSize
          none 0 ∈ o.calls := by
  have hmain : AppleLoadImage H P (AppleImageLoaderEntryPoint S firmwareLoadImage).services
        (AppleImageLoaderEntryPoint S firmwareLoadImage).LoadImage
        BootPolicy ParentImageHandle FilePath SourceBuffer SourceSize Version
      = (LoadImageEx H P (AppleImageLoaderEntryPoint S firmwareLoadImage).services
          BootPolicy ParentImageHandle FilePath (some buf)
          (S.GetFileBufferByFilePath BootPolicy FilePath SourceSize).FileSize).map
        (fun loaded => ⟨loaded.Status, loaded.ImageHandle,
          [Call.GetFileBufferByFilePath BootPolicy FilePath,
           Call.VerifyApplePeImageSignature (some buf)
            (S.GetFileBufferByFilePath BootPolicy FilePath SourceSize).FileSize,
           Call.gBS_LoadImage BootPolicy ParentImageHandle FilePath (some buf)
            (S.GetFileBufferByFilePath BootPolicy FilePath SourceSize).FileSize]
          ++ loaded.calls⟩) :=
    AppleLoadImage_delegates H P (AppleImageLoaderEntryPoint S firmwareLoadImage).services
      (AppleImageLoaderEntryPoint S firmwareLoadImage).LoadImage BootPolicy
      ParentImageHandle FilePath SourceBuffer SourceSize Version buf hbuf hsize hok
  refine ⟨rfl, rfl, hmain, ?_⟩
  intro again o hb2 hs2 ho
  rw [hmain] at ho
  cases hp : ParseAppleEfiFatBinary H P (some again)
      (S.GetFileBufferByFilePath BootPolicy FilePath
        (S.GetFileBufferByFilePath BootPolicy FilePath SourceSize).FileSize).FileSize
      none 0 with
  | none =>
    simp [LoadImageEx, AppleImageLoaderEntryPoint, hb2, hs2, hp] at ho
  | some parsed =>
    by_cases herr : EFI_ERROR parsed.Status = true
    · simp [LoadImageEx, AppleImageLoaderEntryPoint, hb2, hs2, hp, herr] at ho
      subst ho
      simp
    · simp [LoadImageEx, AppleImageLoaderEntryPoint, hb2, hs2, hp, herr] at ho
      subst ho
      simp

/-- Scenario C sent through `AppleLoadImage` after the entry point has run: the
trace of the request contains a call of the parser on the 12 fetched bytes. -/
theorem scenarioC_delegated_to_LoadImageEx :
    Call.ParseAppleEfiFatBinary (some scenarioC) 12 none 0
      ∈ [Call.GetFileBufferByFilePath false 0,
         Call.VerifyApplePeImageSignature (some scenarioC) 12,
         Call.gBS_LoadImage false 0 0 (some scenarioC) 12,
         Call.GetFileBufferByFilePath false 0,
         Call.ParseAppleEfiFatBinary (some scenarioC) 12 none 0,
         Call.OriginalLoadImage false 0 0 (some scenarioC) 12] :=
  (AppleLoadImage_after_entry scenarioDecls .X64 (servicesFor scenarioC) firmwareLoader
    false 0 0 none 0 0 scenarioC rfl (by decide) (by decide)).2.2.2 scenarioC
    ⟨EFI_SUCCESS, some 7,
      [Call.GetFileBufferByFilePath false 0,
       Call.VerifyApplePeImageSignature (some scenarioC) 12,
       Call.gBS_LoadImage false 0 0 (some scenarioC) 12,
       Call.GetFileBufferByFilePath false 0,
       Call.ParseAppleEfiFatBinary (some scenarioC) 12 none 0,
       Call.OriginalLoadImage false 0 0 (some scenarioC) 12]⟩
    rfl (by decide) (by decide)

/-- Claim C17 fails on scenario C: after `AppleImageLoaderEntryPoint` has run on a
table whose loader is `firmwareLoader`, a request through `AppleLoadImage` passes
the verifier and is handed to `gBS->LoadImage`, which is `LoadImageEx`: the file
is fetched again and `ParseAppleEfiFatBinary` is called; the loader of the
firmware is reached only through the fallback of `LoadImageEx`. -/
theorem scenarioC_AppleLoadImage_parses :
    AppleLoadImage scenarioDecls .X64
        (AppleImageLoaderEntryPoint (servicesFor scenarioC) firmwareLoader).services
        (AppleImageLoaderEntryPoint (servicesFor scenarioC) firmwareLoader).LoadImage
        false 0 0 none 0 0
      = some ⟨EFI_SUCCESS, some 7,
          [Call.GetFileBufferByFilePath false 0,
           Call.VerifyApplePeImageSignature (some scenarioC) 12,
           Call.gBS_LoadImage false 0 0 (some scenarioC) 12,
           Call.GetFileBufferByFilePath false 0,
           Call.ParseAppleEfiFatBinary (some scenarioC) 12 none 0,
           Call.OriginalLoadImage false 0 0 (some scenarioC) 12]⟩ := by
  decide

/-- The statement of lines 144-149 inside `LoadImageEx`: the locals after the call
decide the rest of the request; the verifier is handed the caller's
`ImageBuffer` and `ImageSize`, the original loader the caller's `SourceBuffer`
and `SourceSize`. -/
theorem LoadImageEx_via_callParse (H : FatDecls) (P : Platform) (S : Services)
    (BootPolicy : Bool) (ParentImageHandle : EFI_HANDLE) (FilePath : DevicePath)
    (SourceBuffer : Option (List Byte)) (SourceSize : Nat) (buf : List Byte)
    (hbuf : (S.GetFileBufferByFilePath BootPolicy FilePath SourceSize).Buffer = some buf)
    (hsize : (S.GetFileBufferByFilePath BootPolicy FilePath SourceSize).FileSize ≠ 0) :
    LoadImageEx H P S BootPolicy ParentImageHandle FilePath SourceBuffer SourceSize
      = match LoadImageExLocals.callParse H P ⟨EFI_INVALID_PARAMETER, none, 0, some buf,
          (S.GetFileBufferByFilePath BootPolicy FilePath SourceSize).FileSize⟩ with
        | none => none
        | some l =>
          if EFI_ERROR l.Status then
            some ⟨(S.OriginalLoadImage BootPolicy ParentImageHandle FilePath
                  l.SourceBuffer l.SourceSize).Status,
                (S.OriginalLoadImage BootPolicy ParentImageHandle FilePath
                  l.SourceBuffer l.SourceSize).ImageHandle,
                [Call.GetFileBufferByFilePath BootPolicy FilePath,
                 Call.ParseAppleEfiFatBinary (some buf)
                  (S.GetFileBufferByFilePath BootPolicy FilePath SourceSize).FileSize none 0,
                 Call.OriginalLoadImage BootPolicy ParentImageHandle FilePath
                  l.SourceBuffer l.SourceSize]⟩
          else
            some ⟨S.VerifyApplePeImageSignature l.ImageBuffer l.ImageSize, none,
                [Call.GetFileBufferByFilePath BootPolicy FilePath,
                 Call.ParseAppleEfiFatBinary (some buf)
                  (S.GetFileBufferByFilePath BootPolicy FilePath SourceSize).FileSize none 0,
                 Call.VerifyApplePeImageSignature l.ImageBuffer l.ImageSize]⟩ := by
  cases hp : ParseAppleEfiFatBinary H P (some buf)
      (S.GetFileBufferByFilePath BootPolicy FilePath SourceSize).FileSize none 0 with
  | none => simp [LoadImageEx, LoadImageExLocals.callParse, hbuf, hsize, hp]
  | some parsed =>
    by_cases herr : EFI_ERROR parsed.Status = true
    · simp [LoadImageEx, LoadImageExLocals.callParse, hbuf, hsize, hp, herr]
    · simp [LoadImageEx, LoadImageExLocals.callParse, hbuf, hsize, hp, herr]

/-- Claim C18: the call of lines 144-149 passes `ImageBuffer` and `ImageSize` by
value.  Whatever the source buffer is and whatever the parser returns, after
the call the caller's `ImageBuffer` and `ImageSize` still hold `NULL` and 0 (and
its `SourceBuffer` and `SourceSize` are unchanged); the status is all the caller
receives. -/
theorem callParse_keeps_caller_image (H : FatDecls) (P : Platform) (Status : EFI_STATUS)
    (SourceBuffer : Option (List Byte)) (SourceSize : Nat) (l : LoadImageExLocals)
    (hcall : LoadImageExLocals.callParse H P ⟨Status, none, 0, SourceBuffer, SourceSize⟩
      = some l) :
    l.ImageBuffer = none ∧ l.ImageSize = 0
      ∧ l.SourceBuffer = SourceBuffer ∧ l.SourceSize = SourceSize
      ∧ ∃ parsed, ParseAppleEfiFatBinary H P SourceBuffer SourceSize none 0 = some parsed
        ∧ l.Status = parsed.Status := by
  unfold LoadImageExLocals.callParse at hcall
  cases hp : ParseAppleEfiFatBinary H P SourceBuffer SourceSize none 0 with
  | none => simp [hp] at hcall
  | some parsed =>
    simp only [hp, Option.some.injEq] at hcall
    subst hcall
    exact ⟨rfl, rfl, rfl, rfl, parsed, rfl, rfl⟩

/-- Scenario A: the parser's own variables hold the image 1..8, the caller's
`ImageBuffer` and `ImageSize` are `NULL` and 0 after the call. -/
theorem scenarioA_caller_image_untouched :
    (⟨EFI_SUCCESS, none, 0, some scenarioA, 32⟩ : LoadImageExLocals).ImageBuffer = none
      ∧ (⟨EFI_SUCCESS, none, 0, some scenarioA, 32⟩ : LoadImageExLocals).ImageSize = 0
      ∧ (⟨EFI_SUCCESS, none, 0, some scenarioA, 32⟩ : LoadImageExLocals).SourceBuffer
          = some scenarioA
      ∧ (⟨EFI_SUCCESS, none, 0, some scenarioA, 32⟩ : LoadImageExLocals).SourceSize = 32
      ∧ ∃ parsed, ParseAppleEfiFatBinary scenarioDecls .X64 (some scenarioA) 32 none 0
          = some parsed
        ∧ (⟨EFI_SUCCESS, none, 0, some scenarioA, 32⟩ : LoadImageExLocals).Status
          = parsed.Status :=
  callParse_keeps_caller_image scenarioDecls .X64 EFI_INVALID_PARAMETER (some scenarioA) 32
    ⟨EFI_SUCCESS, none, 0, some scenarioA, 32⟩ (by decide)

/-! ## The acceptance condition and the bounds of the reads -/

/-- Claim C19: for a buffer with the recognized magic number and a table that fits,
whose first entry with the platform CPU type is entry `k`, the parser returns
`EFI_SUCCESS` exactly when `cursor ≤ Offset < length` and
`Offset + Size ≤ length`, and `EFI_INVALID_PARAMETER` otherwise.  Here `cursor`
is the end of header and table when `k = 0`, and `Offset + Size` of entry `k - 1`
alone when `k ≥ 1`: each entry that does not match overwrites the cursor. -/
theorem parse_accepts_iff {H : FatDecls} (hWF : H.WF) (P : Platform)
    (src : List Byte) (n k : Nat) (a : ArchHeader) (cursor : Nat)
    (ib : Option (List Byte)) (isz : Nat)
    (hsize : src.length < 2 ^ P.uintnBits)
    (hm : readLE src H.Magic.pos H.Magic.width = some H.APPLE_EFI_FAT_MAGIC)
    (hn : readLE src H.NumArchs.pos H.NumArchs.width = some n)
    (hfit : H.sizeofHeader + H.sizeofArch * n ≤ src.length)
    (hk : k < n)
    (hfirst : ∀ j, j < k →
      ∀ b, readArch H src j = some b → b.CpuType ≠ H.platformCpuType P)
    (ha : readArch H src k = some a) (heq : a.CpuType = H.platformCpuType P)
    (hcur0 : k = 0 → cursor = H.sizeofHeader + H.sizeofArch * n)
    (hcurS : ∀ j b, j + 1 = k → readArch H src j = some b → cursor = b.Offset + b.Size) :
    ((∃ img sz, ParseAppleEfiFatBinary H P (some src) src.length ib isz
          = some ⟨EFI_SUCCESS, img, sz⟩)
        ↔ (cursor ≤ a.Offset ∧ a.Offset < src.length ∧ a.Offset + a.Size ≤ src.length))
    ∧ ((cursor ≤ a.Offset ∧ a.Offset < src.length ∧ a.Offset + a.Size ≤ src.length) →
        ParseAppleEfiFatBinary H P (some src) src.length ib isz
          = some ⟨EFI_SUCCESS, some ((src.drop a.Offset).take a.Size), a.Size⟩)
    ∧ (¬ (cursor ≤ a.Offset ∧ a.Offset < src.length ∧ a.Offset + a.Size ≤ src.length) →
        ParseAppleEfiFatBinary H P (some src) src.length ib isz
          = some ⟨EFI_INVALID_PARAMETER, ib, isz⟩) := by
  have hcur : SizeOfBinaryAt H src (initialSizeOfBinary H P n) k = cursor := by
    cases k with
    | zero =>
      rw [hcur0 rfl, SizeOfBinaryAt_zero]
      exact initialSizeOfBinary_eq H P n (by omega)
    | succ j =>
      obtain ⟨b, hb⟩ := readArch_of_table_fits hWF hfit (Nat.lt_of_succ_lt hk)
      rw [SizeOfBinaryAt_succ hWF _ hb, hcurS j b rfl hb]
  have hparse := parse_first_match hWF P ib isz hm hn hfit hk hfirst ha heq
  rw [hcur] at hparse
  have hyes : (cursor ≤ a.Offset ∧ a.Offset < src.length ∧ a.Offset + a.Size ≤ src.length) →
      ParseAppleEfiFatBinary H P (some src) src.length ib isz
        = some ⟨EFI_SUCCESS, some ((src.drop a.Offset).take a.Size), a.Size⟩ := by
    intro hc
    rw [hparse, if_neg (by omega)]
  have hno : ¬ (cursor ≤ a.Offset ∧ a.Offset < src.length
        ∧ a.Offset + a.Size ≤ src.length) →
      ParseAppleEfiFatBinary H P (some src) src.length ib isz
        = some ⟨EFI_INVALID_PARAMETER, ib, isz⟩ := by
    intro hc
    rw [hparse, if_pos (by omega)]
  refine ⟨⟨?_, fun hc => ⟨_, _, hyes hc⟩⟩, hyes, hno⟩
  rintro ⟨img, sz, hres⟩
  by_contra hc
  rw [hno hc] at hres
  simp [EFI_INVALID_PARAMETER, EFI_SUCCESS] at hres

/-- The buffer `overlapContainer`: the cursor for entry 2 is `Offset + Size = 0` of
entry 1 alone, so the entry at offset 0 is accepted. -/
theorem overlapContainer_accepted :
    ParseAppleEfiFatBinary scenarioDecls .X64 (some overlapContainer)
        overlapContainer.length none 0
      = some ⟨EFI_SUCCESS, some ((overlapContainer.drop 0).take 8), 8⟩ :=
  (parse_accepts_iff (H := scenarioDecls) (by decide) .X64 overlapContainer 3 2
    ⟨0x01000007, 0, 8⟩ 0 none 0 (by decide) (by decide) (by decide) (by decide)
    (by decide)
    (fun j hj b hb => by
      have h0 : readArch scenarioDecls overlapContainer 0 = some ⟨7, 56, 8⟩ := by decide
      have h1 : readArch scenarioDecls overlapContainer 1 = some ⟨7, 0, 0⟩ := by decide
      have hj2 : j = 0 ∨ j = 1 := by omega
      rcases hj2 with rfl | rfl
      · rw [h0] at hb; cases hb; decide
      · rw [h1] at hb; cases hb; decide)
    (by decide) (by decide) (fun h => absurd h (by decide))
    (fun j b hj hb => by
      have h1 : readArch scenarioDecls overlapContainer 1 = some ⟨7, 0, 0⟩ := by decide
      obtain rfl : j = 1 := by omega
      rw [h1] at hb; cases hb; rfl)).2.1 (by decide)

/-- On an X64 build, header size plus table size never exceeds the range of
`UINTN`. -/
theorem table_end_nowrap_X64 {H : FatDecls} (hWF : H.WF) {src : List Byte} {n : Nat}
    (hn : readLE src H.NumArchs.pos H.NumArchs.width = some n) :
    H.sizeofHeader + H.sizeofArch * n < 2 ^ Platform.X64.uintnBits := by
  obtain ⟨-, ⟨-, hn4, -⟩, -, -, ⟨-, ho4, -⟩, -, -, -, -, -, -, -, hsz⟩ := hWF
  have h1 : n < 2 ^ 32 := lt_of_lt_of_le (readLE_lt hn) (pow_width_le hn4)
  have h2 : H.sizeofHeader + H.sizeofArch < 2 ^ 32 := lt_of_lt_of_le hsz (pow_width_le ho4)
  have h4 : H.sizeofArch * n ≤ H.sizeofArch * (2 ^ 32 - 1) :=
    Nat.mul_le_mul_left _ (by omega)
  have h5 : H.sizeofArch * (2 ^ 32 - 1) ≤ (2 ^ 32 - 1) * (2 ^ 32 - 1) :=
    Nat.mul_le_mul_right _ (by omega)
  simp only [Platform.uintnBits]
  norm_num at h1 h2 h4 h5 ⊢
  omega

/-- Where the sum of lines 58-60 does not exceed the range of `UINTN`, the
parser reads inside the buffer only: it returns a status for every buffer. -/
theorem parse_in_bounds_of_nowrap {H : FatDecls} (hWF : H.WF) (P : Platform)
    (src : List Byte) (ib : Option (List Byte)) (isz : Nat)
    (hnowrap : ∀ n, readLE src H.NumArchs.pos H.NumArchs.width = some n →
      H.sizeofHeader + H.sizeofArch * n < 2 ^ P.uintnBits) :
    ∃ r, ParseAppleEfiFatBinary H P (some src) src.length ib isz = some r := by
  by_cases h0 : src.length = 0
  · exact ⟨⟨EFI_UNSUPPORTED, ib, isz⟩, by simp [ParseAppleEfiFatBinary, h0]⟩
  by_cases h1 : src.length < H.sizeofHeader
  · exact ⟨⟨EFI_INVALID_PARAMETER, ib, isz⟩, by simp [ParseAppleEfiFatBinary, h0, h1]⟩
  have hin : H.Magic.pos + H.Magic.width ≤ H.sizeofHeader := hWF.1.2.2
  have hin2 : H.NumArchs.pos + H.NumArchs.width ≤ H.sizeofHeader := hWF.2.1.2.2
  obtain ⟨m, hm⟩ := readLE_of_le src H.Magic.pos H.Magic.width (by omega)
  by_cases hmeq : m = H.APPLE_EFI_FAT_MAGIC
  · subst hmeq
    obtain ⟨n, hn⟩ := readLE_of_le src H.NumArchs.pos H.NumArchs.width (by omega)
    have hparse := parse_of_header hWF P ib isz hm hn (by omega)
    by_cases hover : initialSizeOfBinary H P n > src.length
    · exact ⟨_, by rw [hparse, if_pos hover]⟩
    · have hfit : H.sizeofHeader + H.sizeofArch * n ≤ src.length := by
        rw [initialSizeOfBinary_eq H P n (hnowrap n hn)] at hover
        omega
      rcases first_match_or_none H P src n with hnone | ⟨k, a, hk, ha, heq, hfirst⟩
      · exact ⟨_, parse_of_no_match hWF P ib isz hm hn hfit hnone⟩
      · by_cases hc : a.Offset < SizeOfBinaryAt H src (initialSizeOfBinary H P n) k
            ∨ a.Offset ≥ src.length ∨ src.length < a.Offset + a.Size
        · exact ⟨_, by rw [parse_first_match hWF P ib isz hm hn hfit hk hfirst ha heq,
            if_pos hc]⟩
        · exact ⟨_, by rw [parse_first_match hWF P ib isz hm hn hfit hk hfirst ha heq,
            if_neg hc]⟩
  · exact ⟨⟨EFI_UNSUPPORTED, ib, isz⟩,
      by simp [ParseAppleEfiFatBinary, h0, h1, hm, hmeq]⟩

/-- On an X64 build the parser reads inside the buffer only, for every buffer. -/
theorem parse_in_bounds_X64 {H : FatDecls} (hWF : H.WF) (src : List Byte)
    (ib : Option (List Byte)) (isz : Nat) :
    ∃ r, ParseAppleEfiFatBinary H .X64 (some src) src.length ib isz = some r :=
  parse_in_bounds_of_nowrap hWF .X64 src ib isz (fun _ hn => table_end_nowrap_X64 hWF hn)

/-- Claim C20 on an IA32 build: `hugeCountHeader` is 8 bytes long and declares
`0x10000000` entries; the 32-bit sum of lines 58-60 wraps to 8, the check of
line 62 passes, and the loop reads entry 0 at bytes 8..23, outside the buffer. -/
theorem hugeCountHeader_read_outside :
    hugeCountHeader.length = 8
      ∧ readLE hugeCountHeader scenarioDecls.NumArchs.pos scenarioDecls.NumArchs.width
          = some 0x10000000
      ∧ initialSizeOfBinary scenarioDecls .IA32 0x10000000 = 8
      ∧ ¬ (scenarioDecls.sizeofHeader + (0 + 1) * scenarioDecls.sizeofArch
          ≤ hugeCountHeader.length)
      ∧ readArch scenarioDecls hugeCountHeader 0 = none
      ∧ ParseAppleEfiFatBinary scenarioDecls .IA32 (some hugeCountHeader)
          hugeCountHeader.length none 0 = none := by
  decide

end AppleImageLoader
